import Mathlib

/-!
Verification of the color-science core of the Kiro-Micro-Tools palette app.

The development shallowly embeds the TypeScript sources
`src/utils/colorConversions.ts`, `src/utils/contrastCalculations.ts`,
`src/utils/harmonyRules.ts`, `src/utils/paletteGenerator.ts` and
`src/utils/urlState.ts` into Lean.  JS numbers are modelled as `ℚ`
(`ℝ` for the WCAG gamma computation, which uses a fractional power);
a JS number that may be `NaN` is modelled as `Option ℚ` with `none`
standing for `NaN`.
-/

namespace KiroMicroTools

/-- JS `Math.max` on two numbers. -/
def jsMax (a b : ℚ) : ℚ := if a ≤ b then b else a

/-- JS `Math.min` on two numbers. -/
def jsMin (a b : ℚ) : ℚ := if a ≤ b then a else b

/-- `clamp(value, min, max) = Math.min(Math.max(value, min), max)` from
`colorConversions.ts`. -/
def clampQ (value lo hi : ℚ) : ℚ := jsMin (jsMax value lo) hi

/-- JS `Math.round`: round half toward positive infinity. -/
def jsRound (x : ℚ) : ℤ := ⌊x + 1 / 2⌋

/-- Truncation toward zero, as used by the JS `%` operator. -/
def truncQ (x : ℚ) : ℤ := if 0 ≤ x then ⌊x⌋ else -⌊-x⌋

/-- The JS remainder operator `a % b` on finite numbers. -/
def jsRem (a b : ℚ) : ℚ := a - b * (truncQ (a / b) : ℚ)

/-- Value of a hexadecimal digit character (`0-9`, `a-f`, `A-F`). -/
def hexDigitVal? (c : Char) : Option ℕ :=
  let n := c.toNat
  if 48 ≤ n ∧ n ≤ 57 then some (n - 48)
  else if 65 ≤ n ∧ n ≤ 70 then some (n - 55)
  else if 97 ≤ n ∧ n ≤ 102 then some (n - 87)
  else none

/-- Whether a character is a base-16 digit for JS `parseInt(·, 16)`. -/
def jsIsHexDigit (c : Char) : Bool := (hexDigitVal? c).isSome

/-- Code points treated as whitespace by JS string trimming
(`StrWhiteSpace`: tab, line terminators, space, NBSP, BOM, Unicode `Zs`). -/
def jsWhitespaceCodes : List ℕ :=
  [9, 10, 11, 12, 13, 32, 160, 5760, 8192, 8193, 8194, 8195, 8196, 8197,
   8198, 8199, 8200, 8201, 8202, 8232, 8233, 8239, 8287, 12288, 65279]

/-- Whether a character is JS whitespace. -/
def jsIsWhitespace (c : Char) : Bool := jsWhitespaceCodes.contains c.toNat

/-- Accumulate the value of a list of base-16 digit characters. -/
def hexDigitsVal (cs : List Char) : ℕ :=
  cs.foldl (fun acc c => 16 * acc + (hexDigitVal? c).getD 0) 0

/-- Model of JS `parseInt(s, 16)`:
trim whitespace, optional sign, optional `0x`/`0X` prefix, then the longest
prefix of hex digits; `none` models the `NaN` returned when no digit is found. -/
def jsParseIntHex (s : String) : Option ℤ :=
  let cs := s.data.dropWhile jsIsWhitespace
  let signed : ℤ × List Char :=
    match cs with
    | '-' :: rest => (-1, rest)
    | '+' :: rest => (1, rest)
    | _ => (1, cs)
  let body : List Char :=
    match signed.2 with
    | '0' :: x :: rest => if x = 'x' ∨ x = 'X' then rest else signed.2
    | _ => signed.2
  let digits := body.takeWhile jsIsHexDigit
  if digits.isEmpty then none
  else some (signed.1 * (hexDigitsVal digits : ℤ))

/-- JS `s.substring(i, j)` for `i ≤ j` (indices clamped to the string length). -/
def jsSubstring (s : String) (i j : ℕ) : String := ⟨(s.data.drop i).take (j - i)⟩

/-- JS `s.replace(/^#/, '')`: drop one leading `#` if present. -/
def stripLeadingHash (s : String) : String :=
  if s.data.head? = some '#' then ⟨s.data.tail⟩ else s

/-- An RGB triple of JS numbers (`src/types.ts`). -/
structure RGB where
  r : ℚ
  g : ℚ
  b : ℚ
deriving DecidableEq, Repr

/-- An HSL triple of JS numbers (`src/types.ts`). -/
structure HSL where
  h : ℚ
  s : ℚ
  l : ℚ
deriving DecidableEq, Repr

/-- The object returned by `hexToRgb`: each channel is a JS number where
`none` models `NaN` (the result of a failed `parseInt`).  `clamp` maps
`NaN` to `NaN` (`Math.max`/`Math.min` propagate it), hence `Option.map`. -/
structure RGBN where
  r : Option ℚ
  g : Option ℚ
  b : Option ℚ
deriving DecidableEq, Repr

/-- The NaN-free reading of an `RGBN`: `some` when no channel is `NaN`. -/
def rgbOf (x : RGBN) : Option RGB :=
  match x.r, x.g, x.b with
  | some r, some g, some b => some ⟨r, g, b⟩
  | _, _, _ => none

/-- `hexToRgb` from `colorConversions.ts`: strip a leading `#`, parse the three
2-digit groups in base 16, clamp each channel to `[0,255]`. -/
def hexToRgb (hex : String) : RGBN :=
  let cleanHex := stripLeadingHash hex
  let pr := jsParseIntHex (jsSubstring cleanHex 0 2)
  let pg := jsParseIntHex (jsSubstring cleanHex 2 4)
  let pb := jsParseIntHex (jsSubstring cleanHex 4 6)
  ⟨pr.map (fun v => clampQ (v : ℚ) 0 255),
   pg.map (fun v => clampQ (v : ℚ) 0 255),
   pb.map (fun v => clampQ (v : ℚ) 0 255)⟩

/-- The base-16 digit character produced by JS `Number.prototype.toString(16)`
(lower case). -/
def lowerHexDigit (n : ℕ) : Char :=
  if n < 10 then Char.ofNat (48 + n) else Char.ofNat (87 + n)

/-- Digits of a natural number in base 16, most significant first, as produced
by JS `n.toString(16)` for a nonnegative integer. -/
def natToHexLower (n : ℕ) : List Char :=
  if _h : n < 16 then [lowerHexDigit n]
  else natToHexLower (n / 16) ++ [lowerHexDigit (n % 16)]
termination_by n
decreasing_by exact Nat.div_lt_self (by omega) (by omega)

/-- JS `n.toString(16)` for an integer. -/
def jsToString16 (n : ℤ) : String :=
  if n < 0 then "-" ++ ⟨natToHexLower n.natAbs⟩ else ⟨natToHexLower n.toNat⟩

/-- JS `s.padStart(2, '0')`. -/
def padStart2 (s : String) : String :=
  if s.data.length < 2 then ⟨List.replicate (2 - s.data.length) '0' ++ s.data⟩
  else s

/-- ASCII upper-casing of one character, the effect of `toUpperCase()` on the
characters this program produces. -/
def jsCharUpper (c : Char) : Char :=
  if 97 ≤ c.toNat ∧ c.toNat ≤ 122 then Char.ofNat (c.toNat - 32) else c

/-- JS `s.toUpperCase()` on ASCII strings. -/
def jsToUpper (s : String) : String := ⟨s.data.map jsCharUpper⟩

/-- `clamp(Math.round(x), 0, 255)` from `rgbToHex`; the result is an integer,
so it is kept in `ℤ`. -/
def roundClampByte (x : ℚ) : ℤ :=
  if 255 ≤ jsRound x then 255
  else if jsRound x ≤ 0 then 0
  else jsRound x

/-- The per-channel `toHex` helper of `rgbToHex`:
`n.toString(16).padStart(2, '0').toUpperCase()`. -/
def byteToHexUpper (n : ℤ) : String := jsToUpper (padStart2 (jsToString16 n))

/-- `rgbToHex` from `colorConversions.ts`. -/
def rgbToHex (rgb : RGB) : String :=
  "#" ++ byteToHexUpper (roundClampByte rgb.r) ++
    byteToHexUpper (roundClampByte rgb.g) ++
    byteToHexUpper (roundClampByte rgb.b)

/-- `rgbToHsl` from `colorConversions.ts` (standard min/max/delta algorithm;
the `switch (max)` tries the cases `r`, `g`, `b` in order and leaves `h = 0`
when none matches). -/
def rgbToHsl (rgb : RGB) : HSL :=
  let r := clampQ rgb.r 0 255 / 255
  let g := clampQ rgb.g 0 255 / 255
  let b := clampQ rgb.b 0 255 / 255
  let maxv := jsMax r (jsMax g b)
  let minv := jsMin r (jsMin g b)
  let delta := maxv - minv
  let l := (maxv + minv) / 2
  let s := if delta = 0 then 0
    else if l > 1 / 2 then delta / (2 - maxv - minv) else delta / (maxv + minv)
  let h := if delta = 0 then 0
    else if maxv = r then ((g - b) / delta + (if g < b then 6 else 0)) / 6
    else if maxv = g then ((b - r) / delta + 2) / 6
    else if maxv = b then ((r - g) / delta + 4) / 6
    else 0
  ⟨clampQ ((jsRound (h * 360) : ℤ) : ℚ) 0 360,
   clampQ ((jsRound (s * 100) : ℤ) : ℚ) 0 100,
   clampQ ((jsRound (l * 100) : ℤ) : ℚ) 0 100⟩

/-- The `hue2rgb` helper of `hslToRgb`. -/
def hue2rgb (p q t : ℚ) : ℚ :=
  let t1 := if t < 0 then t + 1 else t
  let t2 := if t1 > 1 then t1 - 1 else t1
  if t2 < 1 / 6 then p + (q - p) * 6 * t2
  else if t2 < 1 / 2 then q
  else if t2 < 2 / 3 then p + (q - p) * (2 / 3 - t2) * 6
  else p

/-- `hslToRgb` from `colorConversions.ts`. -/
def hslToRgb (hsl : HSL) : RGB :=
  let h := clampQ hsl.h 0 360 / 360
  let s := clampQ hsl.s 0 100 / 100
  let l := clampQ hsl.l 0 100 / 100
  if s = 0 then
    ⟨clampQ ((jsRound (l * 255) : ℤ) : ℚ) 0 255,
     clampQ ((jsRound (l * 255) : ℤ) : ℚ) 0 255,
     clampQ ((jsRound (l * 255) : ℤ) : ℚ) 0 255⟩
  else
    let q := if l < 1 / 2 then l * (1 + s) else l + s - l * s
    let p := 2 * l - q
    ⟨clampQ ((jsRound (hue2rgb p q (h + 1 / 3) * 255) : ℤ) : ℚ) 0 255,
     clampQ ((jsRound (hue2rgb p q h * 255) : ℤ) : ℚ) 0 255,
     clampQ ((jsRound (hue2rgb p q (h - 1 / 3) * 255) : ℤ) : ℚ) 0 255⟩

/-- `hslToHex` from `colorConversions.ts`. -/
def hslToHex (hsl : HSL) : String := rgbToHex (hslToRgb hsl)

/-- The closed enumeration of harmony rules (`src/types.ts`). -/
inductive HarmonyRule where
  | analogous
  | complementary
  | triadic
  | tetradic
  | monochromatic
deriving DecidableEq, Repr

/-- The URL name of a harmony rule (its TS string literal). -/
def HarmonyRule.name : HarmonyRule → String
  | .analogous => "analogous"
  | .complementary => "complementary"
  | .triadic => "triadic"
  | .tetradic => "tetradic"
  | .monochromatic => "monochromatic"

/-- A palette color (`src/types.ts`). -/
structure Color where
  hex : String
  rgb : RGB
  hsl : HSL
  locked : Bool
deriving DecidableEq, Repr

/-- A palette (`src/types.ts`); `harmonyRule` is optional. -/
structure Palette where
  colors : List Color
  harmonyRule : Option HarmonyRule
deriving DecidableEq, Repr

/-- `normalizeHue` from `harmonyRules.ts`: `((hue % 360) + 360) % 360`. -/
def normalizeHue (hue : ℚ) : ℚ := jsRem (jsRem hue 360 + 360) 360

/-- `createColorFromHsl` from `harmonyRules.ts`.  The `hexToRgb` call always
succeeds because `hslToHex` emits `#` plus six hex digits, so no channel is
ever `NaN` and the `getD` default is unreachable. -/
def createColorFromHsl (hsl : HSL) (locked : Bool := false) : Color :=
  let hex := hslToHex hsl
  let rgb := (rgbOf (hexToRgb hex)).getD ⟨0, 0, 0⟩
  ⟨hex, rgb, hsl, locked⟩

/-- `generateAnalogousPalette` from `harmonyRules.ts`. -/
def generateAnalogousPalette (baseColor : Color) : List Color :=
  let baseHsl := baseColor.hsl
  ([-30, -15, 0, 15, 30] : List ℚ).map fun offset =>
    createColorFromHsl ⟨normalizeHue (baseHsl.h + offset), baseHsl.s, baseHsl.l⟩

/-- `generateComplementaryPalette` from `harmonyRules.ts`. -/
def generateComplementaryPalette (baseColor : Color) : List Color :=
  let baseHsl := baseColor.hsl
  let complementaryHue := normalizeHue (baseHsl.h + 180)
  [createColorFromHsl ⟨baseHsl.h, baseHsl.s, jsMax 20 (baseHsl.l - 20)⟩,
   createColorFromHsl ⟨baseHsl.h, baseHsl.s, baseHsl.l⟩,
   createColorFromHsl ⟨baseHsl.h, baseHsl.s, jsMin 80 (baseHsl.l + 20)⟩,
   createColorFromHsl ⟨complementaryHue, baseHsl.s, baseHsl.l⟩,
   createColorFromHsl ⟨complementaryHue, baseHsl.s, jsMin 80 (baseHsl.l + 15)⟩]

/-- `generateTriadicPalette` from `harmonyRules.ts`. -/
def generateTriadicPalette (baseColor : Color) : List Color :=
  let baseHsl := baseColor.hsl
  let hue2 := normalizeHue (baseHsl.h + 120)
  let hue3 := normalizeHue (baseHsl.h + 240)
  [createColorFromHsl ⟨baseHsl.h, baseHsl.s, baseHsl.l⟩,
   createColorFromHsl ⟨baseHsl.h, baseHsl.s, jsMin 80 (baseHsl.l + 15)⟩,
   createColorFromHsl ⟨hue2, baseHsl.s, baseHsl.l⟩,
   createColorFromHsl ⟨hue3, baseHsl.s, baseHsl.l⟩,
   createColorFromHsl ⟨hue2, baseHsl.s, jsMax 20 (baseHsl.l - 15)⟩]

/-- `generateTetradicPalette` from `harmonyRules.ts`. -/
def generateTetradicPalette (baseColor : Color) : List Color :=
  let baseHsl := baseColor.hsl
  let hue2 := normalizeHue (baseHsl.h + 90)
  let hue3 := normalizeHue (baseHsl.h + 180)
  let hue4 := normalizeHue (baseHsl.h + 270)
  [createColorFromHsl ⟨baseHsl.h, baseHsl.s, baseHsl.l⟩,
   createColorFromHsl ⟨hue2, baseHsl.s, baseHsl.l⟩,
   createColorFromHsl ⟨hue3, baseHsl.s, baseHsl.l⟩,
   createColorFromHsl ⟨hue4, baseHsl.s, baseHsl.l⟩,
   createColorFromHsl ⟨baseHsl.h, baseHsl.s, jsMin 80 (baseHsl.l + 15)⟩]

/-- `generateMonochromaticPalette` from `harmonyRules.ts`. -/
def generateMonochromaticPalette (baseColor : Color) : List Color :=
  let baseHsl := baseColor.hsl
  [createColorFromHsl ⟨baseHsl.h, jsMax 10 (baseHsl.s - 20), jsMax 20 (baseHsl.l - 20)⟩,
   createColorFromHsl ⟨baseHsl.h, baseHsl.s, jsMax 30 (baseHsl.l - 10)⟩,
   createColorFromHsl ⟨baseHsl.h, baseHsl.s, baseHsl.l⟩,
   createColorFromHsl ⟨baseHsl.h, baseHsl.s, jsMin 70 (baseHsl.l + 10)⟩,
   createColorFromHsl ⟨baseHsl.h, jsMin 90 (baseHsl.s + 20), jsMin 80 (baseHsl.l + 20)⟩]

/-- Per-channel sRGB gamma correction from `getRelativeLuminance`
(`contrastCalculations.ts`).  `Math.pow(·, 2.4)` is a real power, so this
part of the model lives in `ℝ`. -/
noncomputable def srgbLinear (c : ℝ) : ℝ :=
  if c ≤ 0.03928 then c / 12.92 else ((c + 0.055) / 1.055) ^ (2.4 : ℝ)

/-- `getRelativeLuminance` from `contrastCalculations.ts`. -/
noncomputable def getRelativeLuminance (rgb : RGB) : ℝ :=
  0.2126 * srgbLinear ((rgb.r : ℝ) / 255) +
    0.7152 * srgbLinear ((rgb.g : ℝ) / 255) +
    0.0722 * srgbLinear ((rgb.b : ℝ) / 255)

/-- `calculateContrastRatio` from `contrastCalculations.ts`. -/
noncomputable def calculateContrastRatio (rgb1 rgb2 : RGB) : ℝ :=
  let lum1 := getRelativeLuminance rgb1
  let lum2 := getRelativeLuminance rgb2
  let lighter := max lum1 lum2
  let darker := min lum1 lum2
  (lighter + 0.05) / (darker + 0.05)

/-- `Math.floor(q * 256)` — the byte drawn by the `randomHex` helper of
`generateRandomColor` (`paletteGenerator.ts`) from one `Math.random()` draw. -/
def randomByteVal (q : ℚ) : ℤ := ⌊q * 256⌋

/-- The `randomHex` helper: `Math.floor(Math.random() * 256).toString(16).padStart(2, '0')`. -/
def randomHexByte (q : ℚ) : String := padStart2 (jsToString16 (randomByteVal q))

/-- `generateRandomColor` from `paletteGenerator.ts`; the three arguments are
the three `Math.random()` draws.  For draws in `[0,1)` the produced hex always
parses, so the `none` branch is unreachable there. -/
def generateRandomColor (q1 q2 q3 : ℚ) : Color :=
  let hex := jsToUpper ("#" ++ randomHexByte q1 ++ randomHexByte q2 ++ randomHexByte q3)
  let rgb := (rgbOf (hexToRgb hex)).getD ⟨0, 0, 0⟩
  ⟨hex, rgb, rgbToHsl rgb, false⟩

/-- The `rules` array of `selectRandomHarmonyRule`. -/
def harmonyRulesList : List HarmonyRule :=
  [.analogous, .complementary, .triadic, .tetradic, .monochromatic]

/-- `selectRandomHarmonyRule` from `paletteGenerator.ts`:
`rules[Math.floor(Math.random() * 5)]`; `none` models the `undefined` a JS
array yields at an out-of-range index (only possible when the draw is
outside `[0,1)`). -/
def selectRandomHarmonyRule (q : ℚ) : Option HarmonyRule :=
  if ⌊q * 5⌋ < 0 then none else harmonyRulesList[(⌊q * 5⌋).toNat]?

/-- `generatePaletteByRule` from `paletteGenerator.ts`. -/
def generatePaletteByRule (baseColor : Color) (rule : HarmonyRule) : List Color :=
  match rule with
  | .analogous => generateAnalogousPalette baseColor
  | .complementary => generateComplementaryPalette baseColor
  | .triadic => generateTriadicPalette baseColor
  | .tetradic => generateTetradicPalette baseColor
  | .monochromatic => generateMonochromaticPalette baseColor

/-- The inner `while` of `generateRandomPalette`'s merge loop: advance
`generatedIndex` past candidates whose hex equals a locked color's hex,
returning the first usable candidate (pushed with `locked: false`) and the
remaining candidates; `none` when the candidates are exhausted. -/
def pickGenerated (lockedColors : List Color) : List Color → Option (Color × List Color)
  | [] => none
  | g :: rest =>
    if lockedColors.any fun locked => locked.hex == g.hex then
      pickGenerated lockedColors rest
    else some ({ g with locked := false }, rest)

/-- The `for (let i = 0; i < 5; i++)` merge loop of `generateRandomPalette`:
`i` is the position in `cur`, the second argument the remaining iteration
count, `gen` the not-yet-consumed generated colors, and `k` the index of the
next unused `Math.random()` draw.  Each iteration appends exactly one color:
the locked current color, the first non-colliding generated color, or (when
the generated colors are exhausted) a fresh random color. -/
def mergeLoop (rs : ℕ → ℚ) (cur lockedColors : List Color) :
    ℕ → ℕ → List Color → ℕ → List Color × ℕ
  | _, 0, _, k => ([], k)
  | i, count + 1, gen, k =>
    let fill : List Color × ℕ :=
      match pickGenerated lockedColors gen with
      | some (g, gen') =>
        let rest := mergeLoop rs cur lockedColors (i + 1) count gen' k
        (g :: rest.1, rest.2)
      | none =>
        let c := generateRandomColor (rs k) (rs (k + 1)) (rs (k + 2))
        let rest := mergeLoop rs cur lockedColors (i + 1) count gen (k + 3)
        (c :: rest.1, rest.2)
    match cur[i]? with
    | some c =>
      if c.locked then
        let rest := mergeLoop rs cur lockedColors (i + 1) count gen k
        (c :: rest.1, rest.2)
      else fill
    | none => fill

/-- `generateRandomPalette` from `paletteGenerator.ts`.  `rs` models the
successive `Math.random()` draws (draw 0 selects the harmony rule, draws
1–3 feed the first fresh random color, later draws feed fallback colors).
The result is `none` only when draw 0 lies outside `[0,1)`, in which case
the JS code would thread `undefined` through the rule switch. -/
def generateRandomPalette (rs : ℕ → ℚ) (currentPalette : Option Palette) : Option Palette :=
  let ruleOpt := selectRandomHarmonyRule (rs 0)
  let fresh : Option Palette :=
    match ruleOpt with
    | some rule =>
      some ⟨generatePaletteByRule (generateRandomColor (rs 1) (rs 2) (rs 3)) rule, some rule⟩
    | none => none
  match currentPalette with
  | none => fresh
  | some cur =>
    if cur.colors.length = 0 then fresh
    else
      let lockedColors := cur.colors.filter fun c => c.locked
      if lockedColors.length = 0 then fresh
      else if 5 ≤ lockedColors.length then some ⟨cur.colors, ruleOpt⟩
      else
        match ruleOpt, lockedColors with
        | some rule, baseColor :: _ =>
          let generatedColors := generatePaletteByRule baseColor rule
          let res := mergeLoop rs cur.colors lockedColors 0 5 generatedColors 4
          let finalColors := res.1 ++ (List.range (5 - res.1.length)).map fun j =>
            generateRandomColor (rs (res.2 + 3 * j)) (rs (res.2 + 3 * j + 1))
              (rs (res.2 + 3 * j + 2))
          some ⟨finalColors.take 5, some rule⟩
        | none, _ => none
        | _, [] => none

/-- UTF-8 encoding of one character as bytes. -/
def utf8EncodeChar (c : Char) : List ℕ :=
  let n := c.toNat
  if n < 128 then [n]
  else if n < 2048 then [192 + n / 64, 128 + n % 64]
  else if n < 65536 then [224 + n / 4096, 128 + n / 64 % 64, 128 + n % 64]
  else [240 + n / 262144, 128 + n / 4096 % 64, 128 + n / 64 % 64, 128 + n % 64]

/-- UTF-8 encoding of a character list. -/
def utf8EncodeList : List Char → List ℕ
  | [] => []
  | c :: cs => utf8EncodeChar c ++ utf8EncodeList cs

/-- Whether a byte is a UTF-8 continuation byte. -/
def contByte (b : ℕ) : Bool := 128 ≤ b && b < 192

/-- The replacement character U+FFFD emitted for encoding errors. -/
def replChar : Char := Char.ofNat 65533

/-- Validity of the second byte of a 3-byte sequence led by `b1` (excludes
overlong forms for `0xE0` and surrogates for `0xED`). -/
def validSecond3 (b1 b2 : ℕ) : Bool :=
  if b1 = 224 then 160 ≤ b2 && b2 < 192
  else if b1 = 237 then 128 ≤ b2 && b2 < 160
  else contByte b2

/-- Validity of the second byte of a 4-byte sequence led by `b1` (excludes
overlong forms for `0xF0` and values above U+10FFFF for `0xF4`). -/
def validSecond4 (b1 b2 : ℕ) : Bool :=
  if b1 = 240 then 144 ≤ b2 && b2 < 192
  else if b1 = 244 then 128 ≤ b2 && b2 < 144
  else contByte b2

/-- WHATWG UTF-8 decoding with U+FFFD replacement: on an invalid byte one
replacement character is emitted and decoding restarts at that byte. -/
def utf8Decode : List ℕ → List Char
  | [] => []
  | b :: rest =>
    if b < 128 then Char.ofNat b :: utf8Decode rest
    else if b < 194 then replChar :: utf8Decode rest
    else if b < 224 then
      match rest with
      | [] => [replChar]
      | b2 :: rest2 =>
        if contByte b2 then Char.ofNat ((b - 192) * 64 + (b2 - 128)) :: utf8Decode rest2
        else replChar :: utf8Decode (b2 :: rest2)
    else if b < 240 then
      match rest with
      | [] => [replChar]
      | b2 :: rest2 =>
        if validSecond3 b b2 then
          match rest2 with
          | [] => [replChar]
          | b3 :: rest3 =>
            if contByte b3 then
              Char.ofNat ((b - 224) * 4096 + (b2 - 128) * 64 + (b3 - 128)) :: utf8Decode rest3
            else replChar :: utf8Decode (b3 :: rest3)
        else replChar :: utf8Decode (b2 :: rest2)
    else if b < 245 then
      match rest with
      | [] => [replChar]
      | b2 :: rest2 =>
        if validSecond4 b b2 then
          match rest2 with
          | [] => [replChar]
          | b3 :: rest3 =>
            if contByte b3 then
              match rest3 with
              | [] => [replChar]
              | b4 :: rest4 =>
                if contByte b4 then
                  Char.ofNat
                      ((b - 240) * 262144 + (b2 - 128) * 4096 + (b3 - 128) * 64 + (b4 - 128)) ::
                    utf8Decode rest4
                else replChar :: utf8Decode (b4 :: rest4)
            else replChar :: utf8Decode (b3 :: rest3)
        else replChar :: utf8Decode (b2 :: rest2)
    else replChar :: utf8Decode rest
termination_by l => l.length
decreasing_by all_goals simp_wf <;> omega

/-- Value of a hexadecimal digit given as an ASCII byte. -/
def byteHexVal? (b : ℕ) : Option ℕ :=
  if 48 ≤ b ∧ b ≤ 57 then some (b - 48)
  else if 65 ≤ b ∧ b ≤ 70 then some (b - 55)
  else if 97 ≤ b ∧ b ≤ 102 then some (b - 87)
  else none

/-- Percent-decoding on bytes: each `%XY` with two hex digits becomes the
byte `0xXY`; a `%` not followed by two hex digits is kept literally. -/
def percentDecode : List ℕ → List ℕ
  | [] => []
  | 37 :: b2 :: b3 :: rest =>
    match byteHexVal? b2, byteHexVal? b3 with
    | some hi, some lo => (16 * hi + lo) :: percentDecode rest
    | _, _ => 37 :: percentDecode (b2 :: b3 :: rest)
  | b :: rest => b :: percentDecode rest
termination_by l => l.length
decreasing_by all_goals simp_wf <;> omega

/-- `0x2B` (`+`) becomes `0x20` (space) before percent-decoding. -/
def plusToSpace (b : ℕ) : ℕ := if b = 43 then 32 else b

/-- Decoding of one `application/x-www-form-urlencoded` name or value.
The WHATWG parser works on the UTF-8 bytes of the input; splitting at `&`
and `=` on characters (done in `parseQuery`) agrees with splitting on bytes
because those ASCII bytes never occur inside a multi-byte UTF-8 sequence. -/
def pieceDecode (cs : List Char) : String :=
  ⟨utf8Decode (percentDecode ((utf8EncodeList cs).map plusToSpace))⟩

/-- Split a character list at every occurrence of `sep` (the semantics of
JS `String.prototype.split` with a single-character separator). -/
def splitListOn (sep : Char) : List Char → List (List Char)
  | [] => [[]]
  | c :: rest =>
    match splitListOn sep rest with
    | group :: groups =>
      if c = sep then [] :: group :: groups else (c :: group) :: groups
    | [] => [[]]

/-- Split a name-value piece at its first `=`; a piece without `=` is all
name with an empty value. -/
def splitFirstEq : List Char → List Char × List Char
  | [] => ([], [])
  | c :: rest =>
    if c = '=' then ([], rest)
    else
      let nv := splitFirstEq rest
      (c :: nv.1, nv.2)

/-- The `new URLSearchParams(init)` parser: strip one leading `?`, split on
`&`, drop empty pieces, split each piece at its first `=`, and
form-urldecode names and values. -/
def parseQuery (s : String) : List (String × String) :=
  let cs := if s.data.head? = some '?' then s.data.tail else s.data
  ((splitListOn '&' cs).filter fun piece => piece ≠ []).map fun piece =>
    let nv := splitFirstEq piece
    (pieceDecode nv.1, pieceDecode nv.2)

/-- `URLSearchParams.get`: the value of the first pair with the given name;
`none` models the JS `null`. -/
def getParam (pairs : List (String × String)) (key : String) : Option String :=
  (pairs.find? fun p => p.1 == key).map fun p => p.2

/-- Upper-case hexadecimal digit, as used by percent-encoding. -/
def upperHexDigit (n : ℕ) : Char :=
  if n < 10 then Char.ofNat (48 + n) else Char.ofNat (55 + n)

/-- The characters a `URLSearchParams` serializer emits for one byte:
space becomes `+`, ASCII alphanumerics and `*-._` stay, anything else
becomes `%XX` with upper-case hex digits. -/
def serializeByte (b : ℕ) : List Char :=
  if b = 32 then ['+']
  else if (48 ≤ b ∧ b ≤ 57) ∨ (65 ≤ b ∧ b ≤ 90) ∨ (97 ≤ b ∧ b ≤ 122) ∨
      b = 42 ∨ b = 45 ∨ b = 46 ∨ b = 95 then [Char.ofNat b]
  else ['%', upperHexDigit (b / 16), upperHexDigit (b % 16)]

/-- Serialization of a byte list. -/
def serializeBytes : List ℕ → List Char
  | [] => []
  | b :: bs => serializeByte b ++ serializeBytes bs

/-- Form-urlencoding of one name or value. -/
def serializeString (s : String) : List Char := serializeBytes (utf8EncodeList s.data)

/-- One `name=value` pair of `URLSearchParams.toString`. -/
def serializePair (p : String × String) : List Char :=
  serializeString p.1 ++ '=' :: serializeString p.2

/-- The pairs of `URLSearchParams.toString`, joined by `&`. -/
def urlParamsChars : List (String × String) → List Char
  | [] => []
  | [p] => serializePair p
  | p :: ps => serializePair p ++ '&' :: urlParamsChars ps

/-- `URLSearchParams.toString` (pairs kept in insertion order). -/
def urlParamsToString (pairs : List (String × String)) : String := ⟨urlParamsChars pairs⟩

/-- JS `Array.prototype.join(',')`. -/
def joinComma : List String → String
  | [] => ""
  | [s] => s
  | s :: rest => s ++ "," ++ joinComma rest

/-- JS `s.split(',')`, as used by the decoder. -/
def splitComma (s : String) : List String :=
  (splitListOn ',' s.data).map fun cs => (⟨cs⟩ : String)

/-- Helper of JS `s.replace('#', '')`: remove the first occurrence of `#`. -/
def removeFirstHashAux : List Char → List Char
  | [] => []
  | c :: rest => if c = '#' then rest else c :: removeFirstHashAux rest

/-- JS `s.replace('#', '')`: remove the first occurrence of `#`. -/
def removeFirstHash (s : String) : String := ⟨removeFirstHashAux s.data⟩

/-- `encodePaletteToUrl` from `urlState.ts`. -/
def encodePaletteToUrl (palette : Palette) : String :=
  let colorHexes := palette.colors.map fun color => removeFirstHash color.hex
  let locks : String := ⟨palette.colors.map fun color => if color.locked then '1' else '0'⟩
  let pairs :=
    [("colors", joinComma colorHexes), ("locks", locks)] ++
      match palette.harmonyRule with
      | some rule => [("harmony", rule.name)]
      | none => []
  urlParamsToString pairs

/-- The regex test `/^[0-9A-Fa-f]{6}$/.test` of the decoder. -/
def isHex6 (s : String) : Bool := s.data.length == 6 && s.data.all jsIsHexDigit

/-- The regex test `/^[01]{5}$/.test` of the decoder. -/
def isLocks5 (s : String) : Bool :=
  s.data.length == 5 && s.data.all fun c => c == '0' || c == '1'

/-- The `validRules.includes(harmonyParam)` check of the decoder. -/
def parseHarmonyRule (s : String) : Option HarmonyRule :=
  if s = "analogous" then some .analogous
  else if s = "complementary" then some .complementary
  else if s = "triadic" then some .triadic
  else if s = "tetradic" then some .tetradic
  else if s = "monochromatic" then some .monochromatic
  else none

/-- One iteration of the decoder's color loop: validate the token and build
the color (`locked` is overwritten later).  The inner `none` branch is
unreachable for validated tokens (see `decodeColorToken_of_isHex6`). -/
def decodeColorToken (token : String) : Option Color :=
  if isHex6 token then
    let fullHex := "#" ++ jsToUpper token
    match rgbOf (hexToRgb fullHex) with
    | some rgb => some ⟨fullHex, rgb, rgbToHsl rgb, false⟩
    | none => none
  else none

/-- The decoder's `for (const hex of hexColors)` loop: `none` as soon as one
token is rejected, otherwise the list of built colors. -/
def mapMOpt {α β : Type} (f : α → Option β) : List α → Option (List β)
  | [] => some []
  | a :: l =>
    match f a, mapMOpt f l with
    | some b, some l2 => some (b :: l2)
    | _, _ => none

/-- `decodePaletteFromUrl` from `urlState.ts`. -/
def decodePaletteFromUrl (urlHash : String) : Option Palette :=
  let cleanHash := stripLeadingHash urlHash
  if cleanHash = "" then none
  else
    let params := parseQuery cleanHash
    match getParam params "colors" with
    | none => none
    | some colorsParam =>
      if colorsParam = "" then none
      else
        let hexColors := splitComma colorsParam
        if hexColors.length ≠ 5 then none
        else
          match mapMOpt decodeColorToken hexColors with
          | none => none
          | some colors =>
            let colors2 :=
              match getParam params "locks" with
              | some locksParam =>
                if isLocks5 locksParam then
                  List.zipWith (fun (c : Color) ch => { c with locked := ch == '1' })
                    colors locksParam.data
                else colors
              | none => colors
            let harmonyRule :=
              match getParam params "harmony" with
              | some harmonyParam => parseHarmonyRule harmonyParam
              | none => none
            some ⟨colors2, harmonyRule⟩

/-- All three channels lie in the documented `[0,255]` byte range. -/
def inRangeRGB (rgb : RGB) : Prop :=
  0 ≤ rgb.r ∧ rgb.r ≤ 255 ∧ 0 ≤ rgb.g ∧ rgb.g ≤ 255 ∧ 0 ≤ rgb.b ∧ rgb.b ≤ 255

/-- The sixteen characters of a canonical (upper-case) hex color. -/
def upperHexList : List Char :=
  ['0', '1', '2', '3', '4', '5', '6', '7', '8', '9', 'A', 'B', 'C', 'D', 'E', 'F']

/-- Whether a character is an upper-case hexadecimal digit. -/
def isUpperHexDigit (c : Char) : Bool :=
  (48 ≤ c.toNat && c.toNat ≤ 57) || (65 ≤ c.toNat && c.toNat ≤ 70)

/-- The canonical hex format of the data model: `#` followed by six
upper-case hexadecimal digits. -/
def isCanonicalHex (s : String) : Bool :=
  match s.data with
  | c :: rest => c == '#' && rest.length == 6 && rest.all isUpperHexDigit
  | [] => false

/-- Numeric value of a hex digit character (`0` for non-digits). -/
def hexVal (c : Char) : ℕ := (hexDigitVal? c).getD 0

theorem jsMax_eq_max (a b : ℚ) : jsMax a b = max a b := (max_def a b).symm

theorem jsMin_eq_min (a b : ℚ) : jsMin a b = min a b := (min_def a b).symm

theorem clampQ_def (value lo hi : ℚ) : clampQ value lo hi = min (max value lo) hi := by
  rw [clampQ, jsMin_eq_min, jsMax_eq_max]

theorem roundClampByte_def (x : ℚ) :
    roundClampByte x = min (max (jsRound x) 0) 255 := by
  rw [roundClampByte, min_def, max_def]
  split_ifs <;> omega

example : rgbOf (hexToRgb "#FF0000") = some ⟨255, 0, 0⟩ :=
  of_decide_eq_true (by with_unfolding_all rfl)
example : rgbOf (hexToRgb "00ff7f") = some ⟨0, 255, 127⟩ :=
  of_decide_eq_true (by with_unfolding_all rfl)
example : (hexToRgb "GGGGGG").r = none := by decide
example : rgbToHex ⟨255, 0, 0⟩ = "#FF0000" :=
  of_decide_eq_true (by with_unfolding_all rfl)
example : rgbToHsl ⟨255, 0, 0⟩ = ⟨0, 100, 50⟩ :=
  of_decide_eq_true (by with_unfolding_all rfl)
example : rgbToHsl ⟨255, 0, 1⟩ = ⟨360, 100, 50⟩ :=
  of_decide_eq_true (by with_unfolding_all rfl)
example : hslToHex ⟨0, 100, 50⟩ = "#FF0000" :=
  of_decide_eq_true (by with_unfolding_all rfl)

set_option maxRecDepth 8000 in
example :
    (generateAnalogousPalette ⟨"#000000", ⟨0, 0, 0⟩, ⟨10, 50, 50⟩, false⟩).map
      (fun c => c.hsl.h) = [340, 355, 10, 25, 40] :=
  of_decide_eq_true (by with_unfolding_all rfl)

example : decodePaletteFromUrl "" = none := by decide
example : decodePaletteFromUrl "colors=FF0000,00FF00,0000FF" = none :=
  of_decide_eq_true (by with_unfolding_all rfl)
example :
    encodePaletteToUrl
        ⟨[⟨"#FF0000", ⟨255, 0, 0⟩, ⟨0, 100, 50⟩, true⟩,
          ⟨"#00FF00", ⟨0, 255, 0⟩, ⟨120, 100, 50⟩, false⟩], some .triadic⟩ =
      "colors=FF0000%2C00FF00&locks=10&harmony=triadic" := by decide

set_option maxRecDepth 20000 in
example :
    (decodePaletteFromUrl "colors=FF0000,00FF00,0000FF,FFFF00,FF00FF&locks=10101&harmony=triadic").map
        (fun p => (p.colors.map fun c => (c.hex, c.locked), p.harmonyRule)) =
      some ([("#FF0000", true), ("#00FF00", false), ("#0000FF", true),
             ("#FFFF00", false), ("#FF00FF", true)], some .triadic) :=
  of_decide_eq_true (by with_unfolding_all rfl)

theorem srgbLinear_nonneg {c : ℝ} (h : 0 ≤ c) : 0 ≤ srgbLinear c := by
  unfold srgbLinear
  split_ifs with hc
  · positivity
  · exact Real.rpow_nonneg (by positivity) _

theorem srgbLinear_le_one {c : ℝ} (h0 : 0 ≤ c) (h1 : c ≤ 1) : srgbLinear c ≤ 1 := by
  unfold srgbLinear
  split_ifs with hc
  · rw [div_le_one (by norm_num)]
    linarith
  · have hbase1 : (c + 0.055) / 1.055 ≤ 1 := by
      rw [div_le_one (by norm_num)]
      linarith
    exact Real.rpow_le_one (by positivity) hbase1 (by norm_num)

theorem getRelativeLuminance_nonneg {rgb : RGB} (h : inRangeRGB rgb) :
    0 ≤ getRelativeLuminance rgb := by
  obtain ⟨h1, h2, h3, h4, h5, h6⟩ := h
  have hr : (0 : ℝ) ≤ (rgb.r : ℝ) / 255 := by
    have : (0 : ℝ) ≤ (rgb.r : ℝ) := by exact_mod_cast h1
    positivity
  have hg : (0 : ℝ) ≤ (rgb.g : ℝ) / 255 := by
    have : (0 : ℝ) ≤ (rgb.g : ℝ) := by exact_mod_cast h3
    positivity
  have hb : (0 : ℝ) ≤ (rgb.b : ℝ) / 255 := by
    have : (0 : ℝ) ≤ (rgb.b : ℝ) := by exact_mod_cast h5
    positivity
  have := srgbLinear_nonneg hr
  have := srgbLinear_nonneg hg
  have := srgbLinear_nonneg hb
  unfold getRelativeLuminance
  nlinarith

theorem getRelativeLuminance_le_one {rgb : RGB} (h : inRangeRGB rgb) :
    getRelativeLuminance rgb ≤ 1 := by
  obtain ⟨h1, h2, h3, h4, h5, h6⟩ := h
  have hr0 : (0 : ℝ) ≤ (rgb.r : ℝ) / 255 := by
    have : (0 : ℝ) ≤ (rgb.r : ℝ) := by exact_mod_cast h1
    positivity
  have hg0 : (0 : ℝ) ≤ (rgb.g : ℝ) / 255 := by
    have : (0 : ℝ) ≤ (rgb.g : ℝ) := by exact_mod_cast h3
    positivity
  have hb0 : (0 : ℝ) ≤ (rgb.b : ℝ) / 255 := by
    have : (0 : ℝ) ≤ (rgb.b : ℝ) := by exact_mod_cast h5
    positivity
  have hr1 : (rgb.r : ℝ) / 255 ≤ 1 := by
    rw [div_le_one (by norm_num)]
    exact_mod_cast h2
  have hg1 : (rgb.g : ℝ) / 255 ≤ 1 := by
    rw [div_le_one (by norm_num)]
    exact_mod_cast h4
  have hb1 : (rgb.b : ℝ) / 255 ≤ 1 := by
    rw [div_le_one (by norm_num)]
    exact_mod_cast h6
  have := srgbLinear_le_one hr0 hr1
  have := srgbLinear_le_one hg0 hg1
  have := srgbLinear_le_one hb0 hb1
  have := srgbLinear_nonneg hr0
  have := srgbLinear_nonneg hg0
  have := srgbLinear_nonneg hb0
  unfold getRelativeLuminance
  nlinarith

/-- C9: `calculateContrastRatio` is symmetric in its two arguments: for all
RGB inputs `a` and `b`, `calculateContrastRatio a b = calculateContrastRatio b a`. -/
theorem c9_contrast_symmetric (a b : RGB) :
    calculateContrastRatio a b = calculateContrastRatio b a := by
  simp only [calculateContrastRatio]
  rw [max_comm, min_comm]

/-- C8: for RGB inputs with channels in `[0,255]` the contrast ratio lies in
`[1,21]`; identical inputs give exactly `1`; the black/white pair gives
exactly `21` (the idealized real-arithmetic values of the JS `≈1.0`/`≈21.0`). -/
theorem c8_contrast_range :
    (∀ a b : RGB, inRangeRGB a → inRangeRGB b →
      1 ≤ calculateContrastRatio a b ∧ calculateContrastRatio a b ≤ 21) ∧
    (∀ a : RGB, inRangeRGB a → calculateContrastRatio a a = 1) ∧
    calculateContrastRatio ⟨0, 0, 0⟩ ⟨255, 255, 255⟩ = 21 := by
  have hsrgb1 : srgbLinear 1 = 1 := by
    unfold srgbLinear
    rw [if_neg (by norm_num)]
    rw [show ((1 : ℝ) + 0.055) / 1.055 = 1 by norm_num, Real.one_rpow]
  have lumBW : getRelativeLuminance ⟨0, 0, 0⟩ = 0 ∧ getRelativeLuminance ⟨255, 255, 255⟩ = 1 := by
    constructor
    · simp only [getRelativeLuminance]
      norm_num [srgbLinear]
    · simp only [getRelativeLuminance]
      norm_num
      rw [hsrgb1]
      norm_num
  refine ⟨?_, ?_, ?_⟩
  · intro a b ha hb
    have ha0 := getRelativeLuminance_nonneg ha
    have hb0 := getRelativeLuminance_nonneg hb
    have ha1 := getRelativeLuminance_le_one ha
    have hb1 := getRelativeLuminance_le_one hb
    unfold calculateContrastRatio
    set L1 := getRelativeLuminance a
    set L2 := getRelativeLuminance b
    have hmin0 : (0 : ℝ) ≤ min L1 L2 := le_min ha0 hb0
    have hmax1 : max L1 L2 ≤ 1 := max_le ha1 hb1
    have hminmax : min L1 L2 ≤ max L1 L2 := min_le_max
    have hdpos : (0 : ℝ) < min L1 L2 + 0.05 := by linarith
    constructor
    · rw [one_le_div hdpos]
      linarith
    · rw [div_le_iff₀ hdpos]
      linarith
  · intro a ha
    have ha0 := getRelativeLuminance_nonneg ha
    simp only [calculateContrastRatio]
    rw [max_self, min_self]
    exact div_self (by linarith)
  · simp only [calculateContrastRatio]
    rw [lumBW.1, lumBW.2]
    norm_num

theorem c8_contrast_range_witness :
    inRangeRGB ⟨0, 0, 0⟩ ∧ inRangeRGB ⟨255, 255, 255⟩ ∧
      (1 ≤ calculateContrastRatio ⟨0, 0, 0⟩ ⟨255, 255, 255⟩ ∧
        calculateContrastRatio ⟨0, 0, 0⟩ ⟨255, 255, 255⟩ ≤ 21) :=
  ⟨by norm_num [inRangeRGB], by norm_num [inRangeRGB],
   c8_contrast_range.1 ⟨0, 0, 0⟩ ⟨255, 255, 255⟩ (by norm_num [inRangeRGB])
     (by norm_num [inRangeRGB])⟩

theorem clampQ_mem (v lo hi : ℚ) (h : lo ≤ hi) :
    lo ≤ clampQ v lo hi ∧ clampQ v lo hi ≤ hi := by
  rw [clampQ_def]
  exact ⟨le_min (le_max_right v lo) h, min_le_right _ _⟩

/-- C7 (counterexample): on the non-hex input `"GGGGGG"` every `parseInt`
fails, so the red channel of `hexToRgb` is `NaN` (`none`) — not a number
in `[0,255]` as the claim states. -/
theorem c7_hex_channel_not_in_range_cex :
    ¬ ∃ q : ℚ, (hexToRgb "GGGGGG").r = some q ∧ 0 ≤ q ∧ q ≤ 255 := by
  have h : (hexToRgb "GGGGGG").r = none := by decide
  rintro ⟨q, hq, -⟩
  rw [h] at hq
  exact Option.noConfusion hq

/-- C7 (amended): `hexToRgb` is total (it is a Lean function), and every
channel that is not `NaN` — in particular every channel on a valid hex
input — lies in `[0,255]`. -/
theorem c7_hex_to_rgb_channels_clamped (s : String) :
    (∀ q : ℚ, (hexToRgb s).r = some q → 0 ≤ q ∧ q ≤ 255) ∧
    (∀ q : ℚ, (hexToRgb s).g = some q → 0 ≤ q ∧ q ≤ 255) ∧
    (∀ q : ℚ, (hexToRgb s).b = some q → 0 ≤ q ∧ q ≤ 255) := by
  refine ⟨?_, ?_, ?_⟩ <;>
  · simp only [hexToRgb, Option.map_eq_some']
    rintro q ⟨v, -, rfl⟩
    exact clampQ_mem _ 0 255 (by norm_num)

theorem c7_hex_to_rgb_channels_clamped_witness :
    (hexToRgb "#FF0000").r = some 255 ∧ 0 ≤ (255 : ℚ) ∧ (255 : ℚ) ≤ 255 :=
  have h : (hexToRgb "#FF0000").r = some 255 := of_decide_eq_true (by with_unfolding_all rfl)
  ⟨h, (c7_hex_to_rgb_channels_clamped "#FF0000").1 255 h⟩

theorem clampQ_round_int (x : ℚ) (hi : ℤ) (h : 0 ≤ hi) :
    ∃ m : ℤ, clampQ ((jsRound x : ℤ) : ℚ) 0 ((hi : ℤ) : ℚ) = (m : ℚ) ∧ 0 ≤ m ∧ m ≤ hi := by
  refine ⟨min (max (jsRound x) 0) hi, ?_, ?_, ?_⟩
  · rw [clampQ_def]
    push_cast
    norm_num
  · exact le_min (le_max_right _ _) h
  · exact min_le_right _ _

/-- C5 (counterexample): at the in-range integer input `(255, 0, 1)` the
rounded hue is exactly `360`, so the hue is not strictly below `360`. -/
theorem c5_hue_reaches_360_cex :
    (rgbToHsl ⟨255, 0, 1⟩).h = 360 ∧ ¬ (rgbToHsl ⟨255, 0, 1⟩).h < 360 := by
  have h : (rgbToHsl ⟨255, 0, 1⟩).h = 360 := of_decide_eq_true (by with_unfolding_all rfl)
  exact ⟨h, by rw [h]; exact lt_irrefl 360⟩

/-- C5 (amended): for every RGB input with integer channels in `[0,255]`,
`rgbToHsl` returns integers with `h ∈ [0,360]` (the bound `360` is
attained, see the counterexample), `s ∈ [0,100]` and `l ∈ [0,100]`. -/
theorem c5_rgb_to_hsl_output_ranges (rgb : RGB)
    (_hr : ∃ n : ℤ, rgb.r = (n : ℚ) ∧ 0 ≤ n ∧ n ≤ 255)
    (_hg : ∃ n : ℤ, rgb.g = (n : ℚ) ∧ 0 ≤ n ∧ n ≤ 255)
    (_hb : ∃ n : ℤ, rgb.b = (n : ℚ) ∧ 0 ≤ n ∧ n ≤ 255) :
    (∃ m : ℤ, (rgbToHsl rgb).h = (m : ℚ) ∧ 0 ≤ m ∧ m ≤ 360) ∧
    (∃ m : ℤ, (rgbToHsl rgb).s = (m : ℚ) ∧ 0 ≤ m ∧ m ≤ 100) ∧
    (∃ m : ℤ, (rgbToHsl rgb).l = (m : ℚ) ∧ 0 ≤ m ∧ m ≤ 100) := by
  obtain ⟨x, hx⟩ : ∃ x : ℚ, (rgbToHsl rgb).h = clampQ ((jsRound x : ℤ) : ℚ) 0 360 := ⟨_, rfl⟩
  obtain ⟨y, hy⟩ : ∃ y : ℚ, (rgbToHsl rgb).s = clampQ ((jsRound y : ℤ) : ℚ) 0 100 := ⟨_, rfl⟩
  obtain ⟨z, hz⟩ : ∃ z : ℚ, (rgbToHsl rgb).l = clampQ ((jsRound z : ℤ) : ℚ) 0 100 := ⟨_, rfl⟩
  refine ⟨?_, ?_, ?_⟩
  · rw [hx, show (360 : ℚ) = ((360 : ℤ) : ℚ) by norm_num]
    exact clampQ_round_int x 360 (by norm_num)
  · rw [hy, show (100 : ℚ) = ((100 : ℤ) : ℚ) by norm_num]
    exact clampQ_round_int y 100 (by norm_num)
  · rw [hz, show (100 : ℚ) = ((100 : ℤ) : ℚ) by norm_num]
    exact clampQ_round_int z 100 (by norm_num)

theorem c5_rgb_to_hsl_output_ranges_witness :
    (∃ n : ℤ, (255 : ℚ) = (n : ℚ) ∧ 0 ≤ n ∧ n ≤ 255) ∧
      (∃ m : ℤ, (rgbToHsl ⟨255, 0, 1⟩).h = (m : ℚ) ∧ 0 ≤ m ∧ m ≤ 360) :=
  ⟨⟨255, by norm_num⟩,
   (c5_rgb_to_hsl_output_ranges ⟨255, 0, 1⟩ ⟨255, by norm_num⟩ ⟨0, by norm_num⟩
     ⟨1, by norm_num⟩).1⟩

theorem sub_floor_bounds (u : ℚ) :
    0 ≤ u - 360 * ⌊u / 360⌋ ∧ u - 360 * ⌊u / 360⌋ < 360 := by
  have h1 : (⌊u / 360⌋ : ℚ) ≤ u / 360 := Int.floor_le _
  have h2 : u / 360 < ⌊u / 360⌋ + 1 := Int.lt_floor_add_one _
  have h3 : 360 * (u / 360) = u := by ring
  constructor <;> nlinarith

theorem jsRem360_of_nonneg (a : ℚ) (h : 0 ≤ a) : jsRem a 360 = a - 360 * ⌊a / 360⌋ := by
  unfold jsRem truncQ
  rw [if_pos (div_nonneg h (by norm_num))]

theorem jsRem360_of_neg (a : ℚ) (h : a < 0) :
    jsRem a 360 = a + 360 * ⌊-a / 360⌋ ∧ -360 < jsRem a 360 ∧ jsRem a 360 ≤ 0 := by
  have hneg : ¬ (0 ≤ a / 360) := not_le.mpr (div_neg_of_neg_of_pos h (by norm_num))
  have hval : jsRem a 360 = a + 360 * ⌊-a / 360⌋ := by
    unfold jsRem truncQ
    rw [if_neg hneg, show -(a / 360) = -a / 360 from (neg_div _ _).symm]
    push_cast
    ring
  have h1 : (⌊-a / 360⌋ : ℚ) ≤ -a / 360 := Int.floor_le _
  have h2 : -a / 360 < ⌊-a / 360⌋ + 1 := Int.lt_floor_add_one _
  have h3 : 360 * (-a / 360) = -a := by ring
  exact ⟨hval, by rw [hval]; nlinarith, by rw [hval]; nlinarith⟩

/-- Both applications of the JS `%` in `normalizeHue` amount to subtracting an
integer multiple of `360` and landing in `[0, 360)`. -/
theorem normalizeHue_spec (x : ℚ) :
    ∃ k : ℤ, normalizeHue x = x - 360 * (k : ℚ) ∧ 0 ≤ normalizeHue x ∧ normalizeHue x < 360 := by
  have step2 : ∀ r : ℚ, -360 < r → normalizeHue x = jsRem (r + 360) 360 →
      (∃ k₀ : ℤ, r = x - 360 * (k₀ : ℚ)) →
      ∃ k : ℤ, normalizeHue x = x - 360 * (k : ℚ) ∧ 0 ≤ normalizeHue x ∧ normalizeHue x < 360 := by
    rintro r hr hnorm ⟨k₀, hk₀⟩
    have hu : (0 : ℚ) ≤ r + 360 := by linarith
    have e₂ : normalizeHue x = (r + 360) - 360 * ⌊(r + 360) / 360⌋ := by
      rw [hnorm]
      exact jsRem360_of_nonneg _ hu
    have b₂ := sub_floor_bounds (r + 360)
    refine ⟨k₀ - 1 + ⌊(r + 360) / 360⌋, ?_, ?_, ?_⟩
    · rw [e₂, hk₀]
      push_cast
      ring
    · rw [e₂]
      exact b₂.1
    · rw [e₂]
      exact b₂.2
  rcases le_or_lt 0 x with hx | hx
  · have e₁ := jsRem360_of_nonneg x hx
    have b₁ := sub_floor_bounds x
    refine step2 (jsRem x 360) ?_ rfl ⟨⌊x / 360⌋, e₁⟩
    rw [e₁]
    linarith [b₁.1]
  · obtain ⟨e₁, lb₁, ub₁⟩ := jsRem360_of_neg x hx
    refine step2 (jsRem x 360) lb₁ rfl ⟨-⌊-x / 360⌋, ?_⟩
    rw [e₁]
    push_cast
    ring

/-- Hues normalized from inputs at most `60` apart are within circular
distance `60` of one another. -/
theorem normalizeHue_close (a b : ℚ) (h : |a - b| ≤ 60) :
    min |normalizeHue a - normalizeHue b| (360 - |normalizeHue a - normalizeHue b|) ≤ 60 := by
  obtain ⟨k₁, e₁, l₁, u₁⟩ := normalizeHue_spec a
  obtain ⟨k₂, e₂, l₂, u₂⟩ := normalizeHue_spec b
  obtain ⟨hab₁, hab₂⟩ := abs_le.mp h
  have hdk : normalizeHue a - normalizeHue b = (a - b) - 360 * ((k₁ : ℚ) - (k₂ : ℚ)) := by
    rw [e₁, e₂]
    ring
  have hkb : ((k₁ - k₂ : ℤ) : ℚ) < 2 ∧ (-2 : ℚ) < ((k₁ - k₂ : ℤ) : ℚ) := by
    constructor <;> (push_cast; nlinarith)
  have hk : k₁ - k₂ = -1 ∨ k₁ - k₂ = 0 ∨ k₁ - k₂ = 1 := by
    have h2 : k₁ - k₂ < 2 := by exact_mod_cast hkb.1
    have h2n : -2 < k₁ - k₂ := by exact_mod_cast hkb.2
    omega
  rcases hk with hk | hk | hk
  · have hk' : (k₁ : ℚ) - (k₂ : ℚ) = -1 := by exact_mod_cast congrArg (Int.cast : ℤ → ℚ) hk
    have hd : normalizeHue a - normalizeHue b = (a - b) + 360 := by
      rw [hdk, hk']
      ring
    have h300 : 300 ≤ normalizeHue a - normalizeHue b := by rw [hd]; linarith
    refine min_le_of_right_le ?_
    rw [abs_of_nonneg (by linarith)]
    linarith
  · have hk' : (k₁ : ℚ) - (k₂ : ℚ) = 0 := by exact_mod_cast congrArg (Int.cast : ℤ → ℚ) hk
    have hd : normalizeHue a - normalizeHue b = a - b := by
      rw [hdk, hk']
      ring
    refine min_le_of_left_le ?_
    rw [hd, abs_le]
    exact ⟨by linarith, by linarith⟩
  · have hk' : (k₁ : ℚ) - (k₂ : ℚ) = 1 := by exact_mod_cast congrArg (Int.cast : ℤ → ℚ) hk
    have hd : normalizeHue a - normalizeHue b = (a - b) - 360 := by
      rw [hdk, hk']
      ring
    have h300 : normalizeHue a - normalizeHue b ≤ -300 := by rw [hd]; linarith
    refine min_le_of_right_le ?_
    rw [abs_of_nonpos (by linarith)]
    linarith

theorem createColorFromHsl_hsl (hsl : HSL) (locked : Bool) :
    (createColorFromHsl hsl locked).hsl = hsl := rfl

set_option maxRecDepth 8000 in
set_option maxHeartbeats 1000000 in
/-- C6 (counterexample): for the seed with hue `10` the analogous hues wrap
around `0°`, giving the list `[340, 355, 10, 25, 40]`, whose plain
`max − min` span is `345 > 60`; the claim as stated is false. -/
theorem c6_analogous_span_cex :
    ¬ (∀ x ∈ generateAnalogousPalette ⟨"#000000", ⟨0, 0, 0⟩, ⟨10, 50, 50⟩, false⟩,
        ∀ y ∈ generateAnalogousPalette ⟨"#000000", ⟨0, 0, 0⟩, ⟨10, 50, 50⟩, false⟩,
          x.hsl.h - y.hsl.h ≤ 60) := by
  intro hall
  have hmap : (generateAnalogousPalette ⟨"#000000", ⟨0, 0, 0⟩, ⟨10, 50, 50⟩, false⟩).map
      (fun c => c.hsl.h) = [340, 355, 10, 25, 40] :=
    of_decide_eq_true (by with_unfolding_all rfl)
  obtain ⟨x, hx, hx355⟩ := List.mem_map.mp (show (355 : ℚ) ∈
    (generateAnalogousPalette ⟨"#000000", ⟨0, 0, 0⟩, ⟨10, 50, 50⟩, false⟩).map
      (fun c => c.hsl.h) by rw [hmap]; norm_num)
  obtain ⟨y, hy, hy10⟩ := List.mem_map.mp (show (10 : ℚ) ∈
    (generateAnalogousPalette ⟨"#000000", ⟨0, 0, 0⟩, ⟨10, 50, 50⟩, false⟩).map
      (fun c => c.hsl.h) by rw [hmap]; norm_num)
  have := hall x hx y hy
  rw [hx355, hy10] at this
  norm_num at this

/-- C6 (amended): every color of `generateAnalogousPalette` keeps the seed's
saturation and lightness unchanged, and any two of its hues are within
circular distance `60°` of each other (the plain `max − min ≤ 60` form fails
only when the offsets wrap around `0°`, see the counterexample). -/
theorem c6_analogous_palette (c : Color) :
    (∀ x ∈ generateAnalogousPalette c, x.hsl.s = c.hsl.s ∧ x.hsl.l = c.hsl.l) ∧
    (∀ x ∈ generateAnalogousPalette c, ∀ y ∈ generateAnalogousPalette c,
      min |x.hsl.h - y.hsl.h| (360 - |x.hsl.h - y.hsl.h|) ≤ 60) := by
  have hoff : ∀ o ∈ ([-30, -15, 0, 15, 30] : List ℚ), -30 ≤ o ∧ o ≤ 30 := by
    intro o ho
    fin_cases ho <;> norm_num
  have hmem : ∀ x ∈ generateAnalogousPalette c, ∃ o ∈ ([-30, -15, 0, 15, 30] : List ℚ),
      x.hsl = ⟨normalizeHue (c.hsl.h + o), c.hsl.s, c.hsl.l⟩ := by
    intro x hx
    obtain ⟨o, ho, rfl⟩ := List.mem_map.mp hx
    exact ⟨o, ho, createColorFromHsl_hsl _ _⟩
  constructor
  · intro x hx
    obtain ⟨o, -, hhsl⟩ := hmem x hx
    rw [hhsl]
    exact ⟨rfl, rfl⟩
  · intro x hx y hy
    obtain ⟨o₁, ho₁, hx'⟩ := hmem x hx
    obtain ⟨o₂, ho₂, hy'⟩ := hmem y hy
    rw [hx', hy']
    refine normalizeHue_close _ _ ?_
    have h₁ := hoff o₁ ho₁
    have h₂ := hoff o₂ ho₂
    rw [show c.hsl.h + o₁ - (c.hsl.h + o₂) = o₁ - o₂ by ring, abs_le]
    exact ⟨by linarith, by linarith⟩

theorem isUpperHexDigit_mem (c : Char) (h : isUpperHexDigit c = true) :
    c ∈ upperHexList := by
  have hofn := Char.ofNat_toNat c
  simp only [isUpperHexDigit, Bool.or_eq_true, Bool.and_eq_true, decide_eq_true_eq] at h
  rcases h with ⟨h1, h2⟩ | ⟨h1, h2⟩ <;>
  · obtain ⟨n, hn⟩ : ∃ n, c.toNat = n := ⟨_, rfl⟩
    rw [hn] at h1 h2 hofn
    interval_cases n <;> (rw [← hofn]; decide)

theorem hexVal_lt_16 : ∀ c ∈ upperHexList, hexVal c < 16 := by decide

theorem pair_parse_all : ∀ c₁ ∈ upperHexList, ∀ c₂ ∈ upperHexList,
    jsParseIntHex ⟨[c₁, c₂]⟩ = some ((16 * hexVal c₁ + hexVal c₂ : ℕ) : ℤ) := by decide

theorem natToHexLower_small (n : ℕ) (h : n < 16) : natToHexLower n = [lowerHexDigit n] := by
  rw [natToHexLower]
  simp [h]

theorem natToHexLower_two (n : ℕ) (h16 : 16 ≤ n) (h256 : n < 256) :
    natToHexLower n = [lowerHexDigit (n / 16), lowerHexDigit (n % 16)] := by
  rw [natToHexLower]
  rw [dif_neg (by omega)]
  rw [natToHexLower_small (n / 16) (by omega)]
  rfl

theorem jsToString16_ofNat (n : ℕ) : jsToString16 ((n : ℕ) : ℤ) = ⟨natToHexLower n⟩ := by
  unfold jsToString16
  rw [if_neg (not_lt.mpr (Int.natCast_nonneg n)), Int.toNat_natCast]

theorem charUpper_digit : ∀ c ∈ upperHexList, jsCharUpper (lowerHexDigit (hexVal c)) = c := by
  decide

theorem hexVal_zero_char : ∀ c ∈ upperHexList, hexVal c = 0 → c = '0' := by decide

theorem pair_render_all : ∀ c₁ ∈ upperHexList, ∀ c₂ ∈ upperHexList,
    byteToHexUpper ((16 * hexVal c₁ + hexVal c₂ : ℕ) : ℤ) = ⟨[c₁, c₂]⟩ := by
  intro c₁ h₁ c₂ h₂
  have hv₁ := hexVal_lt_16 c₁ h₁
  have hv₂ := hexVal_lt_16 c₂ h₂
  unfold byteToHexUpper
  rw [jsToString16_ofNat]
  rcases Nat.eq_zero_or_pos (hexVal c₁) with hz | hp
  · have hc₁ : c₁ = '0' := hexVal_zero_char c₁ h₁ hz
    subst hc₁
    rw [hz, show 16 * 0 + hexVal c₂ = hexVal c₂ by ring, natToHexLower_small _ hv₂]
    rw [show padStart2 ⟨[lowerHexDigit (hexVal c₂)]⟩ =
        ⟨['0', lowerHexDigit (hexVal c₂)]⟩ from rfl]
    show (⟨[jsCharUpper '0', jsCharUpper (lowerHexDigit (hexVal c₂))]⟩ : String) = _
    rw [charUpper_digit c₂ h₂]
    rfl
  · rw [natToHexLower_two _ (by omega) (by omega)]
    rw [show (16 * hexVal c₁ + hexVal c₂) / 16 = hexVal c₁ by omega]
    rw [show (16 * hexVal c₁ + hexVal c₂) % 16 = hexVal c₂ by omega]
    rw [show padStart2 ⟨[lowerHexDigit (hexVal c₁), lowerHexDigit (hexVal c₂)]⟩ =
        ⟨[lowerHexDigit (hexVal c₁), lowerHexDigit (hexVal c₂)]⟩ from rfl]
    show (⟨[jsCharUpper (lowerHexDigit (hexVal c₁)),
        jsCharUpper (lowerHexDigit (hexVal c₂))]⟩ : String) = _
    rw [charUpper_digit c₁ h₁, charUpper_digit c₂ h₂]

theorem jsRound_intCast (n : ℤ) : jsRound ((n : ℤ) : ℚ) = n := by
  unfold jsRound
  rw [Int.floor_eq_iff]
  constructor
  · linarith
  · linarith

theorem roundClampByte_intCast (n : ℤ) (h0 : 0 ≤ n) (h255 : n ≤ 255) :
    roundClampByte ((n : ℤ) : ℚ) = n := by
  rw [roundClampByte_def, jsRound_intCast]
  omega

theorem clampQ_of_mem (v lo hi : ℚ) (h0 : lo ≤ v) (h1 : v ≤ hi) : clampQ v lo hi = v := by
  rw [clampQ_def, max_eq_left h0, min_eq_left h1]

theorem list_length_six {α : Type} (l : List α) (h : l.length = 6) :
    ∃ a b c d e f, l = [a, b, c, d, e, f] := by
  rcases l with _ | ⟨a, l⟩
  · simp at h
  rcases l with _ | ⟨b, l⟩
  · simp at h
  rcases l with _ | ⟨c, l⟩
  · simp at h
  rcases l with _ | ⟨d, l⟩
  · simp at h
  rcases l with _ | ⟨e, l⟩
  · simp at h
  rcases l with _ | ⟨f, l⟩
  · simp at h
  have : l = [] := by
    simp only [List.length_cons] at h
    exact List.length_eq_zero.mp (by omega)
  subst this
  exact ⟨a, b, c, d, e, f, rfl⟩

theorem hexToRgb_canonical (d₁ d₂ d₃ d₄ d₅ d₆ : Char)
    (h₁ : d₁ ∈ upperHexList) (h₂ : d₂ ∈ upperHexList) (h₃ : d₃ ∈ upperHexList)
    (h₄ : d₄ ∈ upperHexList) (h₅ : d₅ ∈ upperHexList) (h₆ : d₆ ∈ upperHexList) :
    rgbOf (hexToRgb ⟨'#' :: [d₁, d₂, d₃, d₄, d₅, d₆]⟩) =
      some ⟨((16 * hexVal d₁ + hexVal d₂ : ℕ) : ℚ),
            ((16 * hexVal d₃ + hexVal d₄ : ℕ) : ℚ),
            ((16 * hexVal d₅ + hexVal d₆ : ℕ) : ℚ)⟩ := by
  have hshape :
      hexToRgb ⟨'#' :: [d₁, d₂, d₃, d₄, d₅, d₆]⟩ =
        ⟨(jsParseIntHex ⟨[d₁, d₂]⟩).map (fun v => clampQ (v : ℚ) 0 255),
         (jsParseIntHex ⟨[d₃, d₄]⟩).map (fun v => clampQ (v : ℚ) 0 255),
         (jsParseIntHex ⟨[d₅, d₆]⟩).map (fun v => clampQ (v : ℚ) 0 255)⟩ := rfl
  rw [hshape, pair_parse_all d₁ h₁ d₂ h₂, pair_parse_all d₃ h₃ d₄ h₄,
    pair_parse_all d₅ h₅ d₆ h₆]
  have hb : ∀ cₐ ∈ upperHexList, ∀ c_b ∈ upperHexList,
      clampQ (((16 * hexVal cₐ + hexVal c_b : ℕ) : ℤ) : ℚ) 0 255 =
        ((16 * hexVal cₐ + hexVal c_b : ℕ) : ℚ) := by
    intro cₐ ha c_b hb2
    have h16a := hexVal_lt_16 cₐ ha
    have h16b := hexVal_lt_16 c_b hb2
    rw [show (((16 * hexVal cₐ + hexVal c_b : ℕ) : ℤ) : ℚ) =
        ((16 * hexVal cₐ + hexVal c_b : ℕ) : ℚ) by push_cast; ring]
    refine clampQ_of_mem _ _ _ (by positivity) ?_
    have : 16 * hexVal cₐ + hexVal c_b ≤ 255 := by omega
    exact_mod_cast this
  show some (⟨clampQ (((16 * hexVal d₁ + hexVal d₂ : ℕ) : ℤ) : ℚ) 0 255,
      clampQ (((16 * hexVal d₃ + hexVal d₄ : ℕ) : ℤ) : ℚ) 0 255,
      clampQ (((16 * hexVal d₅ + hexVal d₆ : ℕ) : ℤ) : ℚ) 0 255⟩ : RGB) = _
  rw [hb d₁ h₁ d₂ h₂, hb d₃ h₃ d₄ h₄, hb d₅ h₅ d₆ h₆]

theorem rgbToHex_canonical (d₁ d₂ d₃ d₄ d₅ d₆ : Char)
    (h₁ : d₁ ∈ upperHexList) (h₂ : d₂ ∈ upperHexList) (h₃ : d₃ ∈ upperHexList)
    (h₄ : d₄ ∈ upperHexList) (h₅ : d₅ ∈ upperHexList) (h₆ : d₆ ∈ upperHexList) :
    rgbToHex ⟨((16 * hexVal d₁ + hexVal d₂ : ℕ) : ℚ),
              ((16 * hexVal d₃ + hexVal d₄ : ℕ) : ℚ),
              ((16 * hexVal d₅ + hexVal d₆ : ℕ) : ℚ)⟩ =
      ⟨'#' :: [d₁, d₂, d₃, d₄, d₅, d₆]⟩ := by
  have hch : ∀ cₐ ∈ upperHexList, ∀ c_b ∈ upperHexList,
      byteToHexUpper (roundClampByte ((16 * hexVal cₐ + hexVal c_b : ℕ) : ℚ)) =
        (⟨[cₐ, c_b]⟩ : String) := by
    intro cₐ ha c_b hb2
    have h16a := hexVal_lt_16 cₐ ha
    have h16b := hexVal_lt_16 c_b hb2
    have hle : 16 * hexVal cₐ + hexVal c_b ≤ 255 := by omega
    rw [show ((16 * hexVal cₐ + hexVal c_b : ℕ) : ℚ) =
        (((16 * hexVal cₐ + hexVal c_b : ℕ) : ℤ) : ℚ) by push_cast; ring]
    rw [roundClampByte_intCast _ (Int.natCast_nonneg _) (by exact_mod_cast hle)]
    exact pair_render_all cₐ ha c_b hb2
  have e : rgbToHex ⟨((16 * hexVal d₁ + hexVal d₂ : ℕ) : ℚ),
      ((16 * hexVal d₃ + hexVal d₄ : ℕ) : ℚ),
      ((16 * hexVal d₅ + hexVal d₆ : ℕ) : ℚ)⟩ =
        "#" ++ byteToHexUpper (roundClampByte ((16 * hexVal d₁ + hexVal d₂ : ℕ) : ℚ)) ++
          byteToHexUpper (roundClampByte ((16 * hexVal d₃ + hexVal d₄ : ℕ) : ℚ)) ++
          byteToHexUpper (roundClampByte ((16 * hexVal d₅ + hexVal d₆ : ℕ) : ℚ)) := rfl
  rw [e, hch d₁ h₁ d₂ h₂, hch d₃ h₃ d₄ h₄, hch d₅ h₅ d₆ h₆]
  rfl

/-- C3 (counterexample): `"ff0000"` is accepted by `hexToRgb` (six hex
digits, no `#`), but the round-trip yields `"#FF0000"`, not `"ff0000"`. -/
theorem c3_round_trip_cex :
    rgbOf (hexToRgb "ff0000") = some ⟨255, 0, 0⟩ ∧
      rgbToHex ⟨255, 0, 0⟩ = "#FF0000" ∧ "#FF0000" ≠ "ff0000" :=
  ⟨of_decide_eq_true (by with_unfolding_all rfl),
   of_decide_eq_true (by with_unfolding_all rfl), by decide⟩

/-- C3 (amended): for every canonical hex input — `#` followed by six
upper-case hex digits — `rgbToHex (hexToRgb h)` is exactly `h`.  Inputs
without the `#` or with lower-case digits parse to the same RGB but render
back in the canonical form, so the round-trip is not the identity on them
(see the counterexample). -/
theorem c3_hex_round_trip (h : String) (hc : isCanonicalHex h = true) :
    ∃ rgb : RGB, rgbOf (hexToRgb h) = some rgb ∧ rgbToHex rgb = h := by
  obtain ⟨data⟩ := h
  rcases data with _ | ⟨c, rest⟩
  · simp [isCanonicalHex] at hc
  simp only [isCanonicalHex, Bool.and_eq_true, beq_iff_eq, List.all_eq_true] at hc
  obtain ⟨⟨hc1, hlen⟩, hall⟩ := hc
  subst hc1
  obtain ⟨d₁, d₂, d₃, d₄, d₅, d₆, rfl⟩ := list_length_six rest (by exact_mod_cast hlen)
  have m₁ := isUpperHexDigit_mem d₁ (hall d₁ (by simp))
  have m₂ := isUpperHexDigit_mem d₂ (hall d₂ (by simp))
  have m₃ := isUpperHexDigit_mem d₃ (hall d₃ (by simp))
  have m₄ := isUpperHexDigit_mem d₄ (hall d₄ (by simp))
  have m₅ := isUpperHexDigit_mem d₅ (hall d₅ (by simp))
  have m₆ := isUpperHexDigit_mem d₆ (hall d₆ (by simp))
  exact ⟨_, hexToRgb_canonical d₁ d₂ d₃ d₄ d₅ d₆ m₁ m₂ m₃ m₄ m₅ m₆,
    rgbToHex_canonical d₁ d₂ d₃ d₄ d₅ d₆ m₁ m₂ m₃ m₄ m₅ m₆⟩

theorem c3_hex_round_trip_witness :
    isCanonicalHex "#FF0000" = true ∧
      ∃ rgb : RGB, rgbOf (hexToRgb "#FF0000") = some rgb ∧ rgbToHex rgb = "#FF0000" :=
  ⟨by decide, c3_hex_round_trip "#FF0000" (by decide)⟩

theorem generatePaletteByRule_length (baseColor : Color) (rule : HarmonyRule) :
    (generatePaletteByRule baseColor rule).length = 5 := by
  cases rule <;> rfl

theorem selectRandomHarmonyRule_isSome (q : ℚ) (h0 : 0 ≤ q) (h1 : q < 1) :
    ∃ rule, selectRandomHarmonyRule q = some rule := by
  unfold selectRandomHarmonyRule
  have hf0 : 0 ≤ ⌊q * 5⌋ := Int.floor_nonneg.mpr (by positivity)
  have hf5 : ⌊q * 5⌋ < 5 := Int.floor_lt.mpr (by push_cast; linarith)
  rw [if_neg (by omega)]
  have ht : (⌊q * 5⌋).toNat < 5 := by omega
  obtain ⟨m, hm⟩ : ∃ m, (⌊q * 5⌋).toNat = m := ⟨_, rfl⟩
  rw [hm]
  rw [hm] at ht
  interval_cases m <;> exact ⟨_, rfl⟩

/-- Each iteration of the merge loop appends exactly one color, and a locked
color of `cur` at position `i + j` is kept verbatim at position `j` of the
loop's output. -/
theorem mergeLoop_spec (rs : ℕ → ℚ) (cur lockedColors : List Color) :
    ∀ count i gen k,
      (mergeLoop rs cur lockedColors i count gen k).1.length = count ∧
      (∀ j c, j < count → cur[i + j]? = some c → c.locked = true →
        (mergeLoop rs cur lockedColors i count gen k).1[j]? = some c) := by
  intro count
  induction count with
  | zero =>
    intro i gen k
    exact ⟨rfl, fun j c hj _ _ => absurd hj (by omega)⟩
  | succ n ih =>
    intro i gen k
    have step : ∀ g gen' k',
        (g :: (mergeLoop rs cur lockedColors (i + 1) n gen' k').1).length = n + 1 := by
      intro g gen' k'
      simp [(ih (i + 1) gen' k').1]
    have pres : ∀ (g : Color) gen' k', (∀ c, cur[i]? = some c → c.locked = true → g = c) →
        ∀ j c, j < n + 1 → cur[i + j]? = some c → c.locked = true →
          (g :: (mergeLoop rs cur lockedColors (i + 1) n gen' k').1)[j]? = some c := by
      intro g gen' k' hg j c hj hc hl
      cases j with
      | zero =>
        rw [Nat.add_zero] at hc
        rw [List.getElem?_cons_zero, hg c hc hl]
      | succ m =>
        rw [List.getElem?_cons_succ]
        refine (ih (i + 1) gen' k').2 m c (by omega) ?_ hl
        rw [show i + 1 + m = i + (m + 1) by omega]
        exact hc
    rw [mergeLoop]
    cases hcur : cur[i]? with
    | some c =>
      by_cases hl : c.locked
      · simp only [hl, if_true]
        exact ⟨step c gen k, pres c gen k (fun c' hc' _ => by
          rw [hcur] at hc'
          exact Option.some_inj.mp hc')⟩
      · simp only [hl, if_false]
        cases hpick : pickGenerated lockedColors gen with
        | some pr =>
          exact ⟨step pr.1 pr.2 k, pres pr.1 pr.2 k (fun c' hc' hl' => by
            rw [hcur] at hc'
            exact absurd ((Option.some_inj.mp hc') ▸ hl') (by simp [hl]))⟩
        | none =>
          exact ⟨step _ gen (k + 3), pres _ gen (k + 3) (fun c' hc' hl' => by
            rw [hcur] at hc'
            exact absurd ((Option.some_inj.mp hc') ▸ hl') (by simp [hl]))⟩
    | none =>
      cases hpick : pickGenerated lockedColors gen with
      | some pr =>
        exact ⟨step pr.1 pr.2 k, pres pr.1 pr.2 k (fun c' hc' _ => by
          rw [hcur] at hc'
          exact Option.noConfusion hc')⟩
      | none =>
        exact ⟨step _ gen (k + 3), pres _ gen (k + 3) (fun c' hc' _ => by
          rw [hcur] at hc'
          exact Option.noConfusion hc')⟩

/-- C1: for any well-behaved random source and any 5-color input palette,
`generateRandomPalette` returns a palette with exactly 5 colors in which
every locked input color appears unchanged at its index. -/
theorem c1_regeneration_invariants (rs : ℕ → ℚ) (p : Palette)
    (hrs : ∀ i, 0 ≤ rs i ∧ rs i < 1) (h5 : p.colors.length = 5) :
    ∃ out, generateRandomPalette rs (some p) = some out ∧
      out.colors.length = 5 ∧
      ∀ (i : ℕ) (c : Color), p.colors[i]? = some c → c.locked = true →
        out.colors[i]? = some c := by
  obtain ⟨rule, hrule⟩ := selectRandomHarmonyRule_isSome (rs 0) (hrs 0).1 (hrs 0).2
  simp only [generateRandomPalette, hrule]
  rw [if_neg (by rw [h5]; norm_num)]
  by_cases h0 : (p.colors.filter fun c => c.locked).length = 0
  · rw [if_pos h0]
    refine ⟨_, rfl, generatePaletteByRule_length _ _, ?_⟩
    intro i c hc hl
    exfalso
    have hmem : c ∈ p.colors := List.getElem?_mem hc
    have hnil : p.colors.filter (fun c => c.locked) = [] := List.length_eq_zero.mp h0
    have := List.filter_eq_nil_iff.mp hnil c hmem
    simp [hl] at this
  · rw [if_neg h0]
    by_cases h5l : 5 ≤ (p.colors.filter fun c => c.locked).length
    · rw [if_pos h5l]
      exact ⟨_, rfl, h5, fun i c hc _ => hc⟩
    · rw [if_neg h5l]
      cases hlc : p.colors.filter (fun c => c.locked) with
      | nil => exact absurd (by rw [hlc]; rfl) h0
      | cons base tail =>
        have hspec := mergeLoop_spec rs p.colors (base :: tail) 5 0
          (generatePaletteByRule base rule) 4
        refine ⟨_, rfl, ?_, ?_⟩
        · rw [hspec.1, show 5 - 5 = 0 by rfl]
          simp [List.take_of_length_le (le_of_eq hspec.1), hspec.1]
        · intro i c hc hl
          rw [hspec.1, show 5 - 5 = 0 by rfl]
          have hi : i < 5 := by
            rw [← h5]
            exact (List.getElem?_eq_some.mp hc).1
          simp only [List.range_zero, List.map_nil, List.append_nil,
            List.take_of_length_le (le_of_eq hspec.1)]
          have := hspec.2 i c hi (by rw [Nat.zero_add]; exact hc) hl
          exact this

theorem c6_analogous_palette_witness :
    createColorFromHsl ⟨340, 50, 50⟩ ∈
      generateAnalogousPalette ⟨"#000000", ⟨0, 0, 0⟩, ⟨10, 50, 50⟩, false⟩ ∧
    (createColorFromHsl ⟨340, 50, 50⟩).hsl.s = 50 ∧
      (createColorFromHsl ⟨340, 50, 50⟩).hsl.l = 50 := by
  have heval : normalizeHue ((10 : ℚ) + -30) = 340 :=
    of_decide_eq_true (by with_unfolding_all rfl)
  have hmem : createColorFromHsl ⟨340, 50, 50⟩ ∈
      generateAnalogousPalette ⟨"#000000", ⟨0, 0, 0⟩, ⟨10, 50, 50⟩, false⟩ := by
    refine List.mem_map.mpr ⟨-30, by norm_num, ?_⟩
    rw [show ((⟨"#000000", ⟨0, 0, 0⟩, ⟨10, 50, 50⟩, false⟩ : Color).hsl.h : ℚ) = 10 from rfl]
    rw [heval]
  exact ⟨hmem, (c6_analogous_palette ⟨"#000000", ⟨0, 0, 0⟩, ⟨10, 50, 50⟩, false⟩).1 _ hmem⟩

theorem c1_regeneration_invariants_witness :
    (∀ i : ℕ, 0 ≤ (fun _ : ℕ => (1 : ℚ) / 2) i ∧ (fun _ : ℕ => (1 : ℚ) / 2) i < 1) ∧
    (Palette.mk [⟨"#FF0000", ⟨255, 0, 0⟩, ⟨0, 100, 50⟩, true⟩,
        ⟨"#00FF00", ⟨0, 255, 0⟩, ⟨120, 100, 50⟩, false⟩,
        ⟨"#0000FF", ⟨0, 0, 255⟩, ⟨240, 100, 50⟩, false⟩,
        ⟨"#FFFFFF", ⟨255, 255, 255⟩, ⟨0, 0, 100⟩, false⟩,
        ⟨"#000000", ⟨0, 0, 0⟩, ⟨0, 0, 0⟩, false⟩] none).colors.length = 5 ∧
    ∃ out, generateRandomPalette (fun _ : ℕ => (1 : ℚ) / 2)
        (some (Palette.mk [⟨"#FF0000", ⟨255, 0, 0⟩, ⟨0, 100, 50⟩, true⟩,
          ⟨"#00FF00", ⟨0, 255, 0⟩, ⟨120, 100, 50⟩, false⟩,
          ⟨"#0000FF", ⟨0, 0, 255⟩, ⟨240, 100, 50⟩, false⟩,
          ⟨"#FFFFFF", ⟨255, 255, 255⟩, ⟨0, 0, 100⟩, false⟩,
          ⟨"#000000", ⟨0, 0, 0⟩, ⟨0, 0, 0⟩, false⟩] none)) = some out ∧
      out.colors.length = 5 ∧
      ∀ (i : ℕ) (c : Color),
        (Palette.mk [⟨"#FF0000", ⟨255, 0, 0⟩, ⟨0, 100, 50⟩, true⟩,
          ⟨"#00FF00", ⟨0, 255, 0⟩, ⟨120, 100, 50⟩, false⟩,
          ⟨"#0000FF", ⟨0, 0, 255⟩, ⟨240, 100, 50⟩, false⟩,
          ⟨"#FFFFFF", ⟨255, 255, 255⟩, ⟨0, 0, 100⟩, false⟩,
          ⟨"#000000", ⟨0, 0, 0⟩, ⟨0, 0, 0⟩, false⟩] none).colors[i]? = some c →
          c.locked = true → out.colors[i]? = some c :=
  ⟨fun _ => by norm_num, rfl,
   c1_regeneration_invariants (fun _ : ℕ => (1 : ℚ) / 2) _ (fun _ => by norm_num) rfl⟩

theorem char_toNat_ofNat (n : ℕ) (h : n < 55296) : (Char.ofNat n).toNat = n := by
  unfold Char.ofNat
  rw [dif_pos (Or.inl h)]
  simp [Char.ofNatAux, Char.toNat, UInt32.toNat, BitVec.toNat_ofNatLt]

theorem utf8EncodeChar_ascii (c : Char) (h : c.toNat < 128) : utf8EncodeChar c = [c.toNat] := by
  unfold utf8EncodeChar
  rw [if_pos h]

theorem utf8EncodeList_append (l₁ l₂ : List Char) :
    utf8EncodeList (l₁ ++ l₂) = utf8EncodeList l₁ ++ utf8EncodeList l₂ := by
  induction l₁ with
  | nil => rfl
  | cons c l ih => simp [utf8EncodeList, ih]

theorem utf8EncodeList_ascii (cs : List Char) (h : ∀ c ∈ cs, c.toNat < 128) :
    utf8EncodeList cs = cs.map Char.toNat := by
  induction cs with
  | nil => rfl
  | cons c cs ih =>
    simp only [utf8EncodeList, List.map_cons]
    rw [utf8EncodeChar_ascii c (h c (by simp)), ih (fun c' hc' => h c' (by simp [hc']))]
    rfl

theorem utf8Decode_ascii_cons (b : ℕ) (bs : List ℕ) (h : b < 128) :
    utf8Decode (b :: bs) = Char.ofNat b :: utf8Decode bs := by
  conv_lhs => rw [utf8Decode.eq_def]
  simp only []
  rw [if_pos h]

theorem utf8_roundtrip_ascii (cs : List Char) (h : ∀ c ∈ cs, c.toNat < 128) :
    utf8Decode (cs.map Char.toNat) = cs := by
  induction cs with
  | nil => rw [List.map_nil, utf8Decode.eq_def]
  | cons c cs ih =>
    rw [List.map_cons, utf8Decode_ascii_cons _ _ (h c (by simp)), Char.ofNat_toNat,
      ih (fun c' hc' => h c' (by simp [hc']))]

theorem percentDecode_nil : percentDecode [] = [] := by
  rw [percentDecode.eq_def]

theorem percentDecode_cons (b : ℕ) (bs : List ℕ) (h : b ≠ 37) :
    percentDecode (b :: bs) = b :: percentDecode bs := by
  rw [percentDecode.eq_def]
  split <;> simp_all

theorem percentDecode_pct (b2 b3 : ℕ) (bs : List ℕ) (v2 v3 : ℕ)
    (h2 : byteHexVal? b2 = some v2) (h3 : byteHexVal? b3 = some v3) :
    percentDecode (37 :: b2 :: b3 :: bs) = (16 * v2 + v3) :: percentDecode bs := by
  rw [percentDecode.eq_def]
  split
  · simp_all
  · rename_i b2' b3' rest' heq
    injection heq with e1 heq
    injection heq with e2 heq
    injection heq with e3 heq
    subst e2
    subst e3
    subst heq
    rw [h2, h3]
  · rename_i hno heq
    exfalso
    injection heq with e1 e2
    exact hno b2 b3 bs e1.symm e2.symm

theorem upperHexDigit_toNat (k : ℕ) (h : k < 16) :
    (48 ≤ (upperHexDigit k).toNat ∧ (upperHexDigit k).toNat ≤ 57) ∨
      (65 ≤ (upperHexDigit k).toNat ∧ (upperHexDigit k).toNat ≤ 70) := by
  interval_cases k <;> decide

theorem byteHexVal?_upperHexDigit (k : ℕ) (h : k < 16) :
    byteHexVal? (upperHexDigit k).toNat = some k := by
  interval_cases k <;> decide

theorem plusToSpace_of_ne (b : ℕ) (h : b ≠ 43) : plusToSpace b = b := by
  unfold plusToSpace
  rw [if_neg h]

theorem serializeByte_decode (b : ℕ) (hb : b < 256) (tail : List ℕ) :
    percentDecode ((utf8EncodeList (serializeByte b)).map plusToSpace ++ tail) =
      b :: percentDecode tail := by
  by_cases h32 : b = 32
  · subst h32
    rw [show (utf8EncodeList (serializeByte 32)).map plusToSpace = [32] from rfl,
      List.singleton_append, percentDecode_cons 32 tail (by norm_num)]
  · by_cases hsafe : (48 ≤ b ∧ b ≤ 57) ∨ (65 ≤ b ∧ b ≤ 90) ∨ (97 ≤ b ∧ b ≤ 122) ∨
        b = 42 ∨ b = 45 ∨ b = 46 ∨ b = 95
    · have hrange : 42 ≤ b ∧ b ≤ 122 ∧ b ≠ 37 ∧ b ≠ 43 := by
        rcases hsafe with ⟨h1, h2⟩ | ⟨h1, h2⟩ | ⟨h1, h2⟩ | h1 | h1 | h1 | h1 <;> omega
      have hser : serializeByte b = [Char.ofNat b] := by
        unfold serializeByte
        rw [if_neg h32, if_pos hsafe]
      have htn : (Char.ofNat b).toNat = b := char_toNat_ofNat b (by omega)
      rw [hser]
      simp only [utf8EncodeList]
      rw [utf8EncodeChar_ascii _ (by rw [htn]; omega), htn]
      simp only [List.append_nil, List.map_cons, List.map_nil]
      rw [plusToSpace_of_ne b hrange.2.2.2, List.singleton_append,
        percentDecode_cons b tail hrange.2.2.1]
    · have hser : serializeByte b = ['%', upperHexDigit (b / 16), upperHexDigit (b % 16)] := by
        unfold serializeByte
        rw [if_neg h32, if_neg hsafe]
      have hd1 := upperHexDigit_toNat (b / 16) (by omega)
      have hd2 := upperHexDigit_toNat (b % 16) (by omega)
      rw [hser]
      simp only [utf8EncodeList]
      rw [utf8EncodeChar_ascii '%' (by decide),
        utf8EncodeChar_ascii (upperHexDigit (b / 16)) (by omega),
        utf8EncodeChar_ascii (upperHexDigit (b % 16)) (by omega)]
      simp only [List.append_nil, List.cons_append, List.singleton_append, List.map_cons]
      rw [show ('%'.toNat : ℕ) = 37 from rfl]
      simp only [List.nil_append, List.map_cons, List.map_nil]
      rw [plusToSpace_of_ne 37 (by norm_num),
        plusToSpace_of_ne (upperHexDigit (b / 16)).toNat (by omega),
        plusToSpace_of_ne (upperHexDigit (b % 16)).toNat (by omega)]
      simp only [List.cons_append, List.nil_append]
      rw [percentDecode_pct _ _ _ (b / 16) (b % 16)
        (byteHexVal?_upperHexDigit (b / 16) (by omega))
        (byteHexVal?_upperHexDigit (b % 16) (by omega))]
      rw [show 16 * (b / 16) + b % 16 = b from by omega]

theorem serialize_decode (bs : List ℕ) (h : ∀ b ∈ bs, b < 256) :
    percentDecode ((utf8EncodeList (serializeBytes bs)).map plusToSpace) = bs := by
  induction bs with
  | nil => exact percentDecode_nil
  | cons b bs ih =>
    rw [serializeBytes, utf8EncodeList_append, List.map_append,
      serializeByte_decode b (h b (by simp)) _, ih (fun b' hb' => h b' (by simp [hb']))]

theorem string_data_append (a b : String) : (a ++ b).data = a.data ++ b.data := rfl

theorem pieceDecode_serializeString (s : String) (h : ∀ c ∈ s.data, c.toNat < 128) :
    pieceDecode (serializeString s) = s := by
  unfold pieceDecode serializeString
  have hbytes : ∀ b ∈ utf8EncodeList s.data, b < 256 := by
    rw [utf8EncodeList_ascii s.data h]
    intro b hb
    obtain ⟨c, hc, rfl⟩ := List.mem_map.mp hb
    have := h c hc
    omega
  rw [serialize_decode _ hbytes, utf8EncodeList_ascii s.data h, utf8_roundtrip_ascii s.data h]

theorem ne_of_toNat_ne {c c' : Char} (h : c.toNat ≠ c'.toNat) : c ≠ c' :=
  fun he => h (he ▸ rfl)

theorem serializeByte_chars (b : ℕ) (hb : b < 256) :
    ∀ c ∈ serializeByte b, c.toNat < 128 ∧ c.toNat ≠ 38 ∧ c.toNat ≠ 61 ∧ c.toNat ≠ 63 := by
  intro c hc
  unfold serializeByte at hc
  split_ifs at hc with h32 hsafe
  · simp only [List.mem_singleton] at hc
    subst hc
    decide
  · simp only [List.mem_singleton] at hc
    subst hc
    have hb128 : b < 128 := by
      rcases hsafe with ⟨h1, h2⟩ | ⟨h1, h2⟩ | ⟨h1, h2⟩ | h1 | h1 | h1 | h1 <;> omega
    rw [char_toNat_ofNat b (by omega)]
    rcases hsafe with ⟨h1, h2⟩ | ⟨h1, h2⟩ | ⟨h1, h2⟩ | h1 | h1 | h1 | h1 <;> omega
  · have hd1 := upperHexDigit_toNat (b / 16) (by omega)
    have hd2 := upperHexDigit_toNat (b % 16) (by omega)
    simp only [List.mem_cons, List.mem_singleton, List.not_mem_nil, or_false] at hc
    rcases hc with rfl | rfl | rfl
    · decide
    · set t := (upperHexDigit (b / 16)).toNat with ht
      omega
    · set t := (upperHexDigit (b % 16)).toNat with ht
      omega

theorem serializeString_chars (v : String) (h : ∀ c ∈ v.data, c.toNat < 128) :
    ∀ c ∈ serializeString v, c.toNat < 128 ∧ c.toNat ≠ 38 ∧ c.toNat ≠ 61 ∧ c.toNat ≠ 63 := by
  unfold serializeString
  have hbytes : ∀ b ∈ utf8EncodeList v.data, b < 256 := by
    rw [utf8EncodeList_ascii v.data h]
    intro b hb
    obtain ⟨c, hc, rfl⟩ := List.mem_map.mp hb
    have := h c hc
    omega
  generalize utf8EncodeList v.data = bs at hbytes ⊢
  induction bs with
  | nil => intro c hc; exact absurd hc (by simp [serializeBytes])
  | cons b bs ih =>
    intro c hc
    rw [serializeBytes] at hc
    rcases List.mem_append.mp hc with hcl | hcr
    · exact serializeByte_chars b (hbytes b (by simp)) c hcl
    · exact ih (fun b' hb' => hbytes b' (by simp [hb'])) c hcr

theorem serializePair_chars (p : String × String)
    (h1 : ∀ c ∈ p.1.data, c.toNat < 128) (h2 : ∀ c ∈ p.2.data, c.toNat < 128) :
    ∀ c ∈ serializePair p, c.toNat ≠ 38 ∧ c.toNat ≠ 63 := by
  intro c hc
  unfold serializePair at hc
  rcases List.mem_append.mp hc with hcl | hcr
  · have := serializeString_chars p.1 h1 c hcl
    exact ⟨this.2.1, this.2.2.2⟩
  · rcases List.mem_cons.mp hcr with rfl | hcv
    · decide
    · have := serializeString_chars p.2 h2 c hcv
      exact ⟨this.2.1, this.2.2.2⟩

theorem splitListOn_ne_nil (sep : Char) (l : List Char) : splitListOn sep l ≠ [] := by
  induction l with
  | nil => simp [splitListOn]
  | cons c rest ih =>
    rw [splitListOn]
    cases hrec : splitListOn sep rest with
    | nil => simp
    | cons g gs => split_ifs <;> simp

theorem splitListOn_of_not_mem (sep : Char) (l : List Char) (h : sep ∉ l) :
    splitListOn sep l = [l] := by
  induction l with
  | nil => rfl
  | cons c rest ih =>
    have hcne : ¬ c = sep := fun heq => h (heq ▸ List.mem_cons_self c rest)
    rw [splitListOn, ih (fun hmem => h (List.mem_cons_of_mem c hmem))]
    show (if c = sep then [[], rest] else [c :: rest]) = [c :: rest]
    rw [if_neg hcne]

theorem splitListOn_append (sep : Char) (l₁ l₂ : List Char) (h : sep ∉ l₁) :
    splitListOn sep (l₁ ++ sep :: l₂) = l₁ :: splitListOn sep l₂ := by
  induction l₁ with
  | nil =>
    rw [List.nil_append, splitListOn]
    cases hrec : splitListOn sep l₂ with
    | nil => exact absurd hrec (splitListOn_ne_nil sep l₂)
    | cons g gs =>
      show (if sep = sep then [] :: g :: gs else (sep :: g) :: gs) = [] :: g :: gs
      rw [if_pos rfl]
  | cons c rest ih =>
    have hcne : ¬ c = sep := fun heq => h (heq ▸ List.mem_cons_self c rest)
    rw [List.cons_append, splitListOn, ih (fun hmem => h (List.mem_cons_of_mem c hmem))]
    show (if c = sep then [] :: rest :: splitListOn sep l₂
        else (c :: rest) :: splitListOn sep l₂) = (c :: rest) :: splitListOn sep l₂
    rw [if_neg hcne]

theorem splitFirstEq_append (n v : List Char) (h : ('=' : Char) ∉ n) :
    splitFirstEq (n ++ '=' :: v) = (n, v) := by
  induction n with
  | nil => simp [splitFirstEq]
  | cons c rest ih =>
    have hcne : ¬ c = '=' := fun heq => h (heq ▸ List.mem_cons_self c rest)
    rw [List.cons_append, splitFirstEq, if_neg hcne]
    show (c :: (splitFirstEq (rest ++ '=' :: v)).1, (splitFirstEq (rest ++ '=' :: v)).2) = (c :: rest, v)
    rw [ih (fun hmem => h (List.mem_cons_of_mem c hmem))]

theorem getParam_head (k v : String) (ps : List (String × String)) :
    getParam ((k, v) :: ps) k = some v := by
  unfold getParam
  rw [List.find?_cons_of_pos _ (by simp)]
  rfl

theorem getParam_tail (k' v' k : String) (ps : List (String × String)) (h : k' ≠ k) :
    getParam ((k', v') :: ps) k = getParam ps k := by
  unfold getParam
  rw [List.find?_cons_of_neg _ (by simp [h])]

theorem getParam_nil (k : String) : getParam [] k = none := rfl

theorem serializePair_ne_nil (p : String × String) : serializePair p ≠ [] := by
  unfold serializePair
  simp

theorem amp_not_mem_serializePair (p : String × String)
    (h1 : ∀ c ∈ p.1.data, c.toNat < 128) (h2 : ∀ c ∈ p.2.data, c.toNat < 128) :
    ('&' : Char) ∉ serializePair p :=
  fun hmem => (serializePair_chars p h1 h2 '&' hmem).1 (by decide)

theorem splitFirstEq_serializePair (p : String × String)
    (h1 : ∀ c ∈ p.1.data, c.toNat < 128) :
    splitFirstEq (serializePair p) = (serializeString p.1, serializeString p.2) :=
  splitFirstEq_append _ _
    (fun hmem => (serializeString_chars p.1 h1 '=' hmem).2.2.1 (by decide))

theorem parseQuery_pieces (s : String) (h : s.data.head? ≠ some '?') :
    parseQuery s =
      ((splitListOn '&' s.data).filter fun piece => piece ≠ []).map fun piece =>
        let nv := splitFirstEq piece
        (pieceDecode nv.1, pieceDecode nv.2) := by
  unfold parseQuery
  rw [if_neg h]

theorem pieces_urlParamsChars (pairs : List (String × String))
    (h : ∀ p ∈ pairs, (∀ c ∈ p.1.data, c.toNat < 128) ∧ (∀ c ∈ p.2.data, c.toNat < 128)) :
    (((splitListOn '&' (urlParamsChars pairs)).filter fun piece => piece ≠ []).map fun piece =>
        let nv := splitFirstEq piece
        (pieceDecode nv.1, pieceDecode nv.2)) = pairs := by
  induction pairs with
  | nil => rfl
  | cons p ps ih =>
    obtain ⟨h1, h2⟩ := h p (by simp)
    have hdec : (pieceDecode (splitFirstEq (serializePair p)).1,
        pieceDecode (splitFirstEq (serializePair p)).2) = p := by
      rw [splitFirstEq_serializePair p h1]
      show (pieceDecode (serializeString p.1), pieceDecode (serializeString p.2)) = p
      rw [pieceDecode_serializeString p.1 h1, pieceDecode_serializeString p.2 h2]
    cases ps with
    | nil =>
      rw [show urlParamsChars [p] = serializePair p from rfl,
        splitListOn_of_not_mem _ _ (amp_not_mem_serializePair p h1 h2),
        List.filter_cons, if_pos (decide_eq_true (serializePair_ne_nil p)),
        List.filter_nil, List.map_cons, List.map_nil]
      show [(pieceDecode (splitFirstEq (serializePair p)).1,
        pieceDecode (splitFirstEq (serializePair p)).2)] = [p]
      rw [hdec]
    | cons p' ps' =>
      rw [show urlParamsChars (p :: p' :: ps') =
          serializePair p ++ '&' :: urlParamsChars (p' :: ps') from rfl,
        splitListOn_append _ _ _ (amp_not_mem_serializePair p h1 h2),
        List.filter_cons, if_pos (decide_eq_true (serializePair_ne_nil p)),
        List.map_cons]
      show (pieceDecode (splitFirstEq (serializePair p)).1,
          pieceDecode (splitFirstEq (serializePair p)).2) ::
          (((splitListOn '&' (urlParamsChars (p' :: ps'))).filter
              fun piece => piece ≠ []).map fun piece =>
            let nv := splitFirstEq piece
            (pieceDecode nv.1, pieceDecode nv.2)) = p :: p' :: ps'
      rw [hdec, ih (fun q hq => h q (by simp [hq]))]

theorem qmark_not_mem_urlParamsChars (pairs : List (String × String))
    (h : ∀ p ∈ pairs, (∀ c ∈ p.1.data, c.toNat < 128) ∧ (∀ c ∈ p.2.data, c.toNat < 128)) :
    ∀ c ∈ urlParamsChars pairs, c.toNat ≠ 63 := by
  induction pairs with
  | nil => intro c hc; exact absurd hc (by simp [urlParamsChars])
  | cons p ps ih =>
    obtain ⟨h1, h2⟩ := h p (by simp)
    intro c hc
    cases ps with
    | nil =>
      rw [show urlParamsChars [p] = serializePair p from rfl] at hc
      exact (serializePair_chars p h1 h2 c hc).2
    | cons p' ps' =>
      rw [show urlParamsChars (p :: p' :: ps') =
          serializePair p ++ '&' :: urlParamsChars (p' :: ps') from rfl] at hc
      rcases List.mem_append.mp hc with hcl | hcr
      · exact (serializePair_chars p h1 h2 c hcl).2
      · rcases List.mem_cons.mp hcr with rfl | hcv
        · decide
        · exact ih (fun q hq => h q (by simp [hq])) c hcv

theorem parseQuery_urlParams (pairs : List (String × String))
    (h : ∀ p ∈ pairs, (∀ c ∈ p.1.data, c.toNat < 128) ∧ (∀ c ∈ p.2.data, c.toNat < 128)) :
    parseQuery (urlParamsToString pairs) = pairs := by
  have hq : (urlParamsToString pairs).data.head? ≠ some '?' := by
    intro hhead
    have hmem : ('?' : Char) ∈ urlParamsChars pairs :=
      List.mem_of_mem_head? (by exact hhead)
    exact qmark_not_mem_urlParamsChars pairs h '?' hmem (by decide)
  rw [parseQuery_pieces _ hq]
  exact pieces_urlParamsChars pairs h

theorem list_length_five {α : Type} (l : List α) (h : l.length = 5) :
    ∃ a b c d e, l = [a, b, c, d, e] := by
  rcases l with _ | ⟨a, l⟩
  · simp at h
  rcases l with _ | ⟨b, l⟩
  · simp at h
  rcases l with _ | ⟨c, l⟩
  · simp at h
  rcases l with _ | ⟨d, l⟩
  · simp at h
  rcases l with _ | ⟨e, l⟩
  · simp at h
  have : l = [] := by
    simp only [List.length_cons] at h
    exact List.length_eq_zero.mp (by omega)
  subst this
  exact ⟨a, b, c, d, e, rfl⟩

theorem upperHex_lt128 : ∀ c ∈ upperHexList, c.toNat < 128 := by decide

theorem upperHex_ne_comma : ∀ c ∈ upperHexList, c ≠ ',' := by decide

theorem jsCharUpper_upperHex : ∀ c ∈ upperHexList, jsCharUpper c = c := by decide

theorem jsIsHexDigit_of_upperHex : ∀ c ∈ upperHexList, jsIsHexDigit c = true := by decide

theorem isCanonicalHex_parts (s : String) (h : isCanonicalHex s = true) :
    ∃ t : List Char, s = ⟨'#' :: t⟩ ∧ t.length = 6 ∧ ∀ c ∈ t, c ∈ upperHexList := by
  obtain ⟨data⟩ := s
  rcases data with _ | ⟨c, rest⟩
  · simp [isCanonicalHex] at h
  simp only [isCanonicalHex, Bool.and_eq_true, beq_iff_eq, List.all_eq_true] at h
  obtain ⟨⟨hc1, hlen⟩, hall⟩ := h
  subst hc1
  exact ⟨rest, rfl, by exact_mod_cast hlen,
    fun c hc2 => isUpperHexDigit_mem c (hall c hc2)⟩

theorem removeFirstHash_cons_hash (ds : List Char) :
    removeFirstHash ⟨'#' :: ds⟩ = ⟨ds⟩ := by
  show (⟨removeFirstHashAux ('#' :: ds)⟩ : String) = ⟨ds⟩
  rw [show removeFirstHashAux ('#' :: ds) =
    if '#' = '#' then ds else '#' :: removeFirstHashAux ds from rfl, if_pos rfl]

theorem token_ascii (t : List Char) (hmem : ∀ c ∈ t, c ∈ upperHexList) :
    ∀ c ∈ t, c.toNat < 128 :=
  fun c hc => upperHex_lt128 c (hmem c hc)

theorem token_no_comma (t : List Char) (hmem : ∀ c ∈ t, c ∈ upperHexList) :
    (',' : Char) ∉ t :=
  fun hc => upperHex_ne_comma ',' (hmem ',' hc) rfl

theorem joinComma5_data (t1 t2 t3 t4 t5 : List Char) :
    (joinComma [⟨t1⟩, ⟨t2⟩, ⟨t3⟩, ⟨t4⟩, ⟨t5⟩]).data =
      t1 ++ ',' :: (t2 ++ ',' :: (t3 ++ ',' :: (t4 ++ ',' :: t5))) := by
  show t1 ++ [','] ++ (t2 ++ [','] ++ (t3 ++ [','] ++ (t4 ++ [','] ++ t5))) = _
  simp [List.append_assoc]

theorem splitComma_join_five (t1 t2 t3 t4 t5 : List Char)
    (h1 : (',' : Char) ∉ t1) (h2 : (',' : Char) ∉ t2) (h3 : (',' : Char) ∉ t3)
    (h4 : (',' : Char) ∉ t4) (h5 : (',' : Char) ∉ t5) :
    splitComma (joinComma [⟨t1⟩, ⟨t2⟩, ⟨t3⟩, ⟨t4⟩, ⟨t5⟩]) =
      [⟨t1⟩, ⟨t2⟩, ⟨t3⟩, ⟨t4⟩, ⟨t5⟩] := by
  unfold splitComma
  rw [joinComma5_data, splitListOn_append _ _ _ h1, splitListOn_append _ _ _ h2,
    splitListOn_append _ _ _ h3, splitListOn_append _ _ _ h4,
    splitListOn_of_not_mem _ _ h5]
  rfl

theorem joinComma5_ascii (t1 t2 t3 t4 t5 : List Char)
    (h1 : ∀ c ∈ t1, c.toNat < 128) (h2 : ∀ c ∈ t2, c.toNat < 128)
    (h3 : ∀ c ∈ t3, c.toNat < 128) (h4 : ∀ c ∈ t4, c.toNat < 128)
    (h5 : ∀ c ∈ t5, c.toNat < 128) :
    ∀ c ∈ (joinComma [⟨t1⟩, ⟨t2⟩, ⟨t3⟩, ⟨t4⟩, ⟨t5⟩]).data, c.toNat < 128 := by
  rw [joinComma5_data]
  intro c hc
  rcases List.mem_append.mp hc with hc | hc
  · exact h1 c hc
  rcases List.mem_cons.mp hc with rfl | hc
  · decide
  rcases List.mem_append.mp hc with hc | hc
  · exact h2 c hc
  rcases List.mem_cons.mp hc with rfl | hc
  · decide
  rcases List.mem_append.mp hc with hc | hc
  · exact h3 c hc
  rcases List.mem_cons.mp hc with rfl | hc
  · decide
  rcases List.mem_append.mp hc with hc | hc
  · exact h4 c hc
  rcases List.mem_cons.mp hc with rfl | hc
  · decide
  exact h5 c hc

theorem lockChar_roundTrip (b : Bool) : ((if b then '1' else '0') == '1') = b := by
  cases b <;> decide

theorem lockChar_lt128 (b : Bool) : (if b then '1' else '0').toNat < 128 := by
  cases b <;> decide

theorem isLocks5_ifchars (x1 x2 x3 x4 x5 : Bool) :
    isLocks5 ⟨[if x1 then '1' else '0', if x2 then '1' else '0', if x3 then '1' else '0',
      if x4 then '1' else '0', if x5 then '1' else '0']⟩ = true := by
  cases x1 <;> cases x2 <;> cases x3 <;> cases x4 <;> cases x5 <;> decide

theorem ruleName_ascii (r : HarmonyRule) : ∀ c ∈ (HarmonyRule.name r).data, c.toNat < 128 := by
  cases r <;> decide

theorem parseHarmonyRule_name (r : HarmonyRule) :
    parseHarmonyRule (HarmonyRule.name r) = some r := by
  cases r <;> rfl

theorem mapMOpt_nil {α β : Type} (f : α → Option β) : mapMOpt f [] = some [] := rfl

theorem mapMOpt_cons_some {α β : Type} (f : α → Option β) (a : α) (l : List α)
    (b : β) (l2 : List β) (ha : f a = some b) (hl : mapMOpt f l = some l2) :
    mapMOpt f (a :: l) = some (b :: l2) := by
  unfold mapMOpt
  rw [ha, hl]

theorem decodeColorToken_canonical (t : List Char) (hlen : t.length = 6)
    (hmem : ∀ c ∈ t, c ∈ upperHexList) :
    ∃ rgb : RGB, decodeColorToken ⟨t⟩ = some ⟨⟨'#' :: t⟩, rgb, rgbToHsl rgb, false⟩ ∧
      rgbOf (hexToRgb ⟨'#' :: t⟩) = some rgb := by
  obtain ⟨d1, d2, d3, d4, d5, d6, rfl⟩ := list_length_six t hlen
  have m1 := hmem d1 (by simp)
  have m2 := hmem d2 (by simp)
  have m3 := hmem d3 (by simp)
  have m4 := hmem d4 (by simp)
  have m5 := hmem d5 (by simp)
  have m6 := hmem d6 (by simp)
  have hhex : isHex6 ⟨[d1, d2, d3, d4, d5, d6]⟩ = true := by
    simp [isHex6, jsIsHexDigit_of_upperHex d1 m1, jsIsHexDigit_of_upperHex d2 m2,
      jsIsHexDigit_of_upperHex d3 m3, jsIsHexDigit_of_upperHex d4 m4,
      jsIsHexDigit_of_upperHex d5 m5, jsIsHexDigit_of_upperHex d6 m6]
  have hupper : jsToUpper ⟨[d1, d2, d3, d4, d5, d6]⟩ = ⟨[d1, d2, d3, d4, d5, d6]⟩ := by
    show (⟨[jsCharUpper d1, jsCharUpper d2, jsCharUpper d3, jsCharUpper d4,
      jsCharUpper d5, jsCharUpper d6]⟩ : String) = _
    rw [jsCharUpper_upperHex d1 m1, jsCharUpper_upperHex d2 m2, jsCharUpper_upperHex d3 m3,
      jsCharUpper_upperHex d4 m4, jsCharUpper_upperHex d5 m5, jsCharUpper_upperHex d6 m6]
  refine ⟨_, ?_, hexToRgb_canonical d1 d2 d3 d4 d5 d6 m1 m2 m3 m4 m5 m6⟩
  unfold decodeColorToken
  rw [if_pos hhex, hupper]
  rw [show ("#" ++ ⟨[d1, d2, d3, d4, d5, d6]⟩ : String) =
    ⟨'#' :: [d1, d2, d3, d4, d5, d6]⟩ from rfl]
  simp only []
  rw [hexToRgb_canonical d1 d2 d3 d4 d5 d6 m1 m2 m3 m4 m5 m6]

theorem urlParamsChars_colors_head (v : String) (ps : List (String × String)) :
    ∃ t, urlParamsChars (("colors", v) :: ps) = 'c' :: t := by
  cases ps with
  | nil => exact ⟨_, rfl⟩
  | cons p2 ps2 => exact ⟨_, rfl⟩

theorem decode_strip_colors (v : String) (ps : List (String × String)) :
    stripLeadingHash (urlParamsToString (("colors", v) :: ps)) =
      urlParamsToString (("colors", v) :: ps) := by
  obtain ⟨t, ht⟩ := urlParamsChars_colors_head v ps
  unfold stripLeadingHash urlParamsToString
  rw [show (⟨urlParamsChars (("colors", v) :: ps)⟩ : String).data =
    urlParamsChars (("colors", v) :: ps) from rfl, ht]
  rw [if_neg (by simp)]

theorem urlParamsToString_colors_ne_empty (v : String) (ps : List (String × String)) :
    urlParamsToString (("colors", v) :: ps) ≠ "" := by
  obtain ⟨t, ht⟩ := urlParamsChars_colors_head v ps
  intro he
  have : urlParamsChars (("colors", v) :: ps) = [] := congrArg String.data he
  rw [ht] at this
  exact List.cons_ne_nil _ _ this

theorem lockChars_ascii (x1 x2 x3 x4 x5 : Bool) :
    ∀ c ∈ (⟨[if x1 then '1' else '0', if x2 then '1' else '0', if x3 then '1' else '0',
      if x4 then '1' else '0', if x5 then '1' else '0']⟩ : String).data, c.toNat < 128 := by
  intro c hc
  simp only [List.mem_cons, List.not_mem_nil, or_false] at hc
  rcases hc with rfl | rfl | rfl | rfl | rfl <;> exact lockChar_lt128 _

theorem decodePaletteFromUrl_encoded (t1 t2 t3 t4 t5 : List Char)
    (hl1 : t1.length = 6) (hm1 : ∀ c ∈ t1, c ∈ upperHexList)
    (hl2 : t2.length = 6) (hm2 : ∀ c ∈ t2, c ∈ upperHexList)
    (hl3 : t3.length = 6) (hm3 : ∀ c ∈ t3, c ∈ upperHexList)
    (hl4 : t4.length = 6) (hm4 : ∀ c ∈ t4, c ∈ upperHexList)
    (hl5 : t5.length = 6) (hm5 : ∀ c ∈ t5, c ∈ upperHexList)
    (x1 x2 x3 x4 x5 : Bool) (tailPairs : List (String × String))
    (htail : ∀ pr ∈ tailPairs,
      (∀ c ∈ pr.1.data, c.toNat < 128) ∧ (∀ c ∈ pr.2.data, c.toNat < 128)) :
    ∃ r1 r2 r3 r4 r5 : RGB,
      decodePaletteFromUrl (urlParamsToString
          (("colors", joinComma [⟨t1⟩, ⟨t2⟩, ⟨t3⟩, ⟨t4⟩, ⟨t5⟩]) ::
            ("locks", ⟨[if x1 then '1' else '0', if x2 then '1' else '0',
              if x3 then '1' else '0', if x4 then '1' else '0',
              if x5 then '1' else '0']⟩) :: tailPairs)) =
        some ⟨[⟨⟨'#' :: t1⟩, r1, rgbToHsl r1, x1⟩, ⟨⟨'#' :: t2⟩, r2, rgbToHsl r2, x2⟩,
               ⟨⟨'#' :: t3⟩, r3, rgbToHsl r3, x3⟩, ⟨⟨'#' :: t4⟩, r4, rgbToHsl r4, x4⟩,
               ⟨⟨'#' :: t5⟩, r5, rgbToHsl r5, x5⟩],
          match getParam tailPairs "harmony" with
          | some hv => parseHarmonyRule hv
          | none => none⟩ ∧
      rgbOf (hexToRgb ⟨'#' :: t1⟩) = some r1 ∧ rgbOf (hexToRgb ⟨'#' :: t2⟩) = some r2 ∧
      rgbOf (hexToRgb ⟨'#' :: t3⟩) = some r3 ∧ rgbOf (hexToRgb ⟨'#' :: t4⟩) = some r4 ∧
      rgbOf (hexToRgb ⟨'#' :: t5⟩) = some r5 := by
  obtain ⟨r1, hd1, hr1⟩ := decodeColorToken_canonical t1 hl1 hm1
  obtain ⟨r2, hd2, hr2⟩ := decodeColorToken_canonical t2 hl2 hm2
  obtain ⟨r3, hd3, hr3⟩ := decodeColorToken_canonical t3 hl3 hm3
  obtain ⟨r4, hd4, hr4⟩ := decodeColorToken_canonical t4 hl4 hm4
  obtain ⟨r5, hd5, hr5⟩ := decodeColorToken_canonical t5 hl5 hm5
  refine ⟨r1, r2, r3, r4, r5, ?_, hr1, hr2, hr3, hr4, hr5⟩
  have hVascii := joinComma5_ascii t1 t2 t3 t4 t5 (token_ascii t1 hm1) (token_ascii t2 hm2)
    (token_ascii t3 hm3) (token_ascii t4 hm4) (token_ascii t5 hm5)
  have hparse : parseQuery (urlParamsToString
      (("colors", joinComma [⟨t1⟩, ⟨t2⟩, ⟨t3⟩, ⟨t4⟩, ⟨t5⟩]) ::
        ("locks", ⟨[if x1 then '1' else '0', if x2 then '1' else '0',
          if x3 then '1' else '0', if x4 then '1' else '0',
          if x5 then '1' else '0']⟩) :: tailPairs)) =
      ("colors", joinComma [⟨t1⟩, ⟨t2⟩, ⟨t3⟩, ⟨t4⟩, ⟨t5⟩]) ::
        ("locks", ⟨[if x1 then '1' else '0', if x2 then '1' else '0',
          if x3 then '1' else '0', if x4 then '1' else '0',
          if x5 then '1' else '0']⟩) :: tailPairs := by
    refine parseQuery_urlParams _ ?_
    intro pr hpr
    rcases List.mem_cons.mp hpr with rfl | hpr
    · exact ⟨show ∀ c ∈ ("colors" : String).data, c.toNat < 128 from by decide, hVascii⟩
    rcases List.mem_cons.mp hpr with rfl | hpr
    · exact ⟨show ∀ c ∈ ("locks" : String).data, c.toNat < 128 from by decide,
        lockChars_ascii x1 x2 x3 x4 x5⟩
    exact htail pr hpr
  have hVne : joinComma [⟨t1⟩, ⟨t2⟩, ⟨t3⟩, ⟨t4⟩, ⟨t5⟩] ≠ "" := by
    intro he
    have hmemc : (',' : Char) ∈ (joinComma [⟨t1⟩, ⟨t2⟩, ⟨t3⟩, ⟨t4⟩, ⟨t5⟩]).data := by
      rw [joinComma5_data]
      simp
    rw [he] at hmemc
    exact absurd hmemc (by decide)
  have hsplit := splitComma_join_five t1 t2 t3 t4 t5 (token_no_comma t1 hm1)
    (token_no_comma t2 hm2) (token_no_comma t3 hm3) (token_no_comma t4 hm4)
    (token_no_comma t5 hm5)
  have hmap : mapMOpt decodeColorToken [⟨t1⟩, ⟨t2⟩, ⟨t3⟩, ⟨t4⟩, ⟨t5⟩] =
      some [⟨⟨'#' :: t1⟩, r1, rgbToHsl r1, false⟩, ⟨⟨'#' :: t2⟩, r2, rgbToHsl r2, false⟩,
        ⟨⟨'#' :: t3⟩, r3, rgbToHsl r3, false⟩, ⟨⟨'#' :: t4⟩, r4, rgbToHsl r4, false⟩,
        ⟨⟨'#' :: t5⟩, r5, rgbToHsl r5, false⟩] :=
    mapMOpt_cons_some _ _ _ _ _ hd1 (mapMOpt_cons_some _ _ _ _ _ hd2
      (mapMOpt_cons_some _ _ _ _ _ hd3 (mapMOpt_cons_some _ _ _ _ _ hd4
        (mapMOpt_cons_some _ _ _ _ _ hd5 (mapMOpt_nil _)))))
  simp only [decodePaletteFromUrl]
  rw [decode_strip_colors]
  rw [if_neg (urlParamsToString_colors_ne_empty _ _)]
  rw [hparse, getParam_head]
  simp only []
  rw [if_neg hVne, hsplit]
  rw [if_neg (show ¬([(⟨t1⟩ : String), ⟨t2⟩, ⟨t3⟩, ⟨t4⟩, ⟨t5⟩].length ≠ 5) from by simp)]
  rw [hmap]
  simp only []
  rw [getParam_tail _ _ _ _ (by decide), getParam_head]
  simp only []
  rw [if_pos (isLocks5_ifchars x1 x2 x3 x4 x5)]
  rw [getParam_tail _ _ _ _ (by decide), getParam_tail _ _ _ _ (by decide)]
  show some (⟨[⟨⟨'#' :: t1⟩, r1, rgbToHsl r1, (if x1 then '1' else '0') == '1'⟩,
      ⟨⟨'#' :: t2⟩, r2, rgbToHsl r2, (if x2 then '1' else '0') == '1'⟩,
      ⟨⟨'#' :: t3⟩, r3, rgbToHsl r3, (if x3 then '1' else '0') == '1'⟩,
      ⟨⟨'#' :: t4⟩, r4, rgbToHsl r4, (if x4 then '1' else '0') == '1'⟩,
      ⟨⟨'#' :: t5⟩, r5, rgbToHsl r5, (if x5 then '1' else '0') == '1'⟩],
    match getParam tailPairs "harmony" with
    | some hv => parseHarmonyRule hv
    | none => none⟩ : Palette) = _
  rw [lockChar_roundTrip x1, lockChar_roundTrip x2, lockChar_roundTrip x3,
    lockChar_roundTrip x4, lockChar_roundTrip x5]

/-- C2: for every palette with exactly five colors, each carrying a canonical
`#RRGGBB` hex string (the format the data model guarantees for `Color.hex`),
`decodePaletteFromUrl (encodePaletteToUrl p)` is non-`none` and returns a
palette with the same five hex strings, the same per-position lock flags and
the same (possibly absent) harmony rule, where each color's `rgb` is
recomputed from its hex by `hexToRgb` and its `hsl` by `rgbToHsl`. -/
theorem c2_encode_decode_round_trip (p : Palette) (h5 : p.colors.length = 5)
    (hhex : ∀ c ∈ p.colors, isCanonicalHex c.hex = true) :
    ∃ q : Palette,
      decodePaletteFromUrl (encodePaletteToUrl p) = some q ∧
      q.colors.map Color.hex = p.colors.map Color.hex ∧
      q.colors.map Color.locked = p.colors.map Color.locked ∧
      q.harmonyRule = p.harmonyRule ∧
      ∀ c ∈ q.colors, rgbOf (hexToRgb c.hex) = some c.rgb ∧ c.hsl = rgbToHsl c.rgb := by
  obtain ⟨c1, c2, c3, c4, c5, hcols⟩ := list_length_five p.colors h5
  obtain ⟨t1, hx1, hl1, hm1⟩ := isCanonicalHex_parts c1.hex (hhex c1 (by simp [hcols]))
  obtain ⟨t2, hx2, hl2, hm2⟩ := isCanonicalHex_parts c2.hex (hhex c2 (by simp [hcols]))
  obtain ⟨t3, hx3, hl3, hm3⟩ := isCanonicalHex_parts c3.hex (hhex c3 (by simp [hcols]))
  obtain ⟨t4, hx4, hl4, hm4⟩ := isCanonicalHex_parts c4.hex (hhex c4 (by simp [hcols]))
  obtain ⟨t5, hx5, hl5, hm5⟩ := isCanonicalHex_parts c5.hex (hhex c5 (by simp [hcols]))
  have henc : encodePaletteToUrl p = urlParamsToString
      (("colors", joinComma [⟨t1⟩, ⟨t2⟩, ⟨t3⟩, ⟨t4⟩, ⟨t5⟩]) ::
        ("locks", ⟨[if c1.locked then '1' else '0', if c2.locked then '1' else '0',
          if c3.locked then '1' else '0', if c4.locked then '1' else '0',
          if c5.locked then '1' else '0']⟩) ::
        (match p.harmonyRule with | some r => [("harmony", r.name)] | none => [])) := by
    simp only [encodePaletteToUrl]
    rw [hcols]
    simp only [List.map_cons, List.map_nil]
    rw [hx1, hx2, hx3, hx4, hx5, removeFirstHash_cons_hash, removeFirstHash_cons_hash,
      removeFirstHash_cons_hash, removeFirstHash_cons_hash, removeFirstHash_cons_hash]
    rfl
  rcases hhr : p.harmonyRule with _ | r
  · rw [hhr] at henc
    simp only [] at henc
    obtain ⟨r1, r2, r3, r4, r5, hdec, hg1, hg2, hg3, hg4, hg5⟩ :=
      decodePaletteFromUrl_encoded t1 t2 t3 t4 t5 hl1 hm1 hl2 hm2 hl3 hm3 hl4 hm4 hl5 hm5
        c1.locked c2.locked c3.locked c4.locked c5.locked [] (by simp)
    refine ⟨_, by rw [henc]; exact hdec, ?_, ?_, ?_, ?_⟩
    · rw [hcols]
      simp only [List.map_cons, List.map_nil]
      rw [hx1, hx2, hx3, hx4, hx5]
    · rw [hcols]
      rfl
    · rfl
    · intro c hc
      simp only [List.mem_cons, List.not_mem_nil, or_false] at hc
      rcases hc with rfl | rfl | rfl | rfl | rfl
      · exact ⟨hg1, rfl⟩
      · exact ⟨hg2, rfl⟩
      · exact ⟨hg3, rfl⟩
      · exact ⟨hg4, rfl⟩
      · exact ⟨hg5, rfl⟩
  · rw [hhr] at henc
    simp only [] at henc
    have hasc : ∀ pr ∈ [(("harmony" : String), HarmonyRule.name r)],
        (∀ c ∈ pr.1.data, c.toNat < 128) ∧ (∀ c ∈ pr.2.data, c.toNat < 128) := by
      intro pr hpr
      rcases List.mem_cons.mp hpr with rfl | hpr
      · exact ⟨show ∀ c ∈ ("harmony" : String).data, c.toNat < 128 from by decide,
          ruleName_ascii r⟩
      · exact absurd hpr (by simp)
    obtain ⟨r1, r2, r3, r4, r5, hdec, hg1, hg2, hg3, hg4, hg5⟩ :=
      decodePaletteFromUrl_encoded t1 t2 t3 t4 t5 hl1 hm1 hl2 hm2 hl3 hm3 hl4 hm4 hl5 hm5
        c1.locked c2.locked c3.locked c4.locked c5.locked [("harmony", r.name)] hasc
    refine ⟨_, by rw [henc]; exact hdec, ?_, ?_, ?_, ?_⟩
    · rw [hcols]
      simp only [List.map_cons, List.map_nil]
      rw [hx1, hx2, hx3, hx4, hx5]
    · rw [hcols]
      rfl
    · show (match getParam [("harmony", r.name)] "harmony" with
        | some hv => parseHarmonyRule hv
        | none => none) = some r
      rw [getParam_head]
      simp only []
      exact parseHarmonyRule_name r
    · intro c hc
      simp only [List.mem_cons, List.not_mem_nil, or_false] at hc
      rcases hc with rfl | rfl | rfl | rfl | rfl
      · exact ⟨hg1, rfl⟩
      · exact ⟨hg2, rfl⟩
      · exact ⟨hg3, rfl⟩
      · exact ⟨hg4, rfl⟩
      · exact ⟨hg5, rfl⟩

theorem c2_encode_decode_round_trip_witness :
    ([(⟨"#FF0000", ⟨255, 0, 0⟩, ⟨0, 100, 50⟩, true⟩ : Color),
      ⟨"#00FF00", ⟨0, 255, 0⟩, ⟨120, 100, 50⟩, false⟩,
      ⟨"#0000FF", ⟨0, 0, 255⟩, ⟨240, 100, 50⟩, false⟩,
      ⟨"#FFFF00", ⟨255, 255, 0⟩, ⟨60, 100, 50⟩, true⟩,
      ⟨"#FF00FF", ⟨255, 0, 255⟩, ⟨300, 100, 50⟩, false⟩].length = 5) ∧
    ∃ q : Palette,
      decodePaletteFromUrl (encodePaletteToUrl
        ⟨[⟨"#FF0000", ⟨255, 0, 0⟩, ⟨0, 100, 50⟩, true⟩,
          ⟨"#00FF00", ⟨0, 255, 0⟩, ⟨120, 100, 50⟩, false⟩,
          ⟨"#0000FF", ⟨0, 0, 255⟩, ⟨240, 100, 50⟩, false⟩,
          ⟨"#FFFF00", ⟨255, 255, 0⟩, ⟨60, 100, 50⟩, true⟩,
          ⟨"#FF00FF", ⟨255, 0, 255⟩, ⟨300, 100, 50⟩, false⟩], some .triadic⟩) = some q ∧
      q.colors.map Color.hex =
        (⟨[⟨"#FF0000", ⟨255, 0, 0⟩, ⟨0, 100, 50⟩, true⟩,
          ⟨"#00FF00", ⟨0, 255, 0⟩, ⟨120, 100, 50⟩, false⟩,
          ⟨"#0000FF", ⟨0, 0, 255⟩, ⟨240, 100, 50⟩, false⟩,
          ⟨"#FFFF00", ⟨255, 255, 0⟩, ⟨60, 100, 50⟩, true⟩,
          ⟨"#FF00FF", ⟨255, 0, 255⟩, ⟨300, 100, 50⟩, false⟩], some .triadic⟩ :
            Palette).colors.map Color.hex ∧
      q.colors.map Color.locked =
        (⟨[⟨"#FF0000", ⟨255, 0, 0⟩, ⟨0, 100, 50⟩, true⟩,
          ⟨"#00FF00", ⟨0, 255, 0⟩, ⟨120, 100, 50⟩, false⟩,
          ⟨"#0000FF", ⟨0, 0, 255⟩, ⟨240, 100, 50⟩, false⟩,
          ⟨"#FFFF00", ⟨255, 255, 0⟩, ⟨60, 100, 50⟩, true⟩,
          ⟨"#FF00FF", ⟨255, 0, 255⟩, ⟨300, 100, 50⟩, false⟩], some .triadic⟩ :
            Palette).colors.map Color.locked ∧
      q.harmonyRule =
        (⟨[⟨"#FF0000", ⟨255, 0, 0⟩, ⟨0, 100, 50⟩, true⟩,
          ⟨"#00FF00", ⟨0, 255, 0⟩, ⟨120, 100, 50⟩, false⟩,
          ⟨"#0000FF", ⟨0, 0, 255⟩, ⟨240, 100, 50⟩, false⟩,
          ⟨"#FFFF00", ⟨255, 255, 0⟩, ⟨60, 100, 50⟩, true⟩,
          ⟨"#FF00FF", ⟨255, 0, 255⟩, ⟨300, 100, 50⟩, false⟩], some .triadic⟩ :
            Palette).harmonyRule ∧
      ∀ c ∈ q.colors, rgbOf (hexToRgb c.hex) = some c.rgb ∧ c.hsl = rgbToHsl c.rgb :=
  ⟨rfl, c2_encode_decode_round_trip
    ⟨[⟨"#FF0000", ⟨255, 0, 0⟩, ⟨0, 100, 50⟩, true⟩,
      ⟨"#00FF00", ⟨0, 255, 0⟩, ⟨120, 100, 50⟩, false⟩,
      ⟨"#0000FF", ⟨0, 0, 255⟩, ⟨240, 100, 50⟩, false⟩,
      ⟨"#FFFF00", ⟨255, 255, 0⟩, ⟨60, 100, 50⟩, true⟩,
      ⟨"#FF00FF", ⟨255, 0, 255⟩, ⟨300, 100, 50⟩, false⟩], some .triadic⟩
    rfl (by decide)⟩

theorem hexDigit_ranges (c : Char) (h : jsIsHexDigit c = true) :
    (48 ≤ c.toNat ∧ c.toNat ≤ 57) ∨ (65 ≤ c.toNat ∧ c.toNat ≤ 70) ∨
      (97 ≤ c.toNat ∧ c.toNat ≤ 102) := by
  simp only [jsIsHexDigit, hexDigitVal?] at h
  split_ifs at h with h1 h2 h3
  · exact Or.inl h1
  · exact Or.inr (Or.inl h2)
  · exact Or.inr (Or.inr h3)
  · exact absurd h (by decide)

theorem jsCharUpper_hexDigit_mem (c : Char) (h : jsIsHexDigit c = true) :
    jsCharUpper c ∈ upperHexList := by
  have hofn := Char.ofNat_toNat c
  rcases hexDigit_ranges c h with ⟨h1, h2⟩ | ⟨h1, h2⟩ | ⟨h1, h2⟩
  · have he : jsCharUpper c = c := by
      unfold jsCharUpper
      rw [if_neg (by omega)]
    rw [he]
    obtain ⟨n, hn⟩ : ∃ n, c.toNat = n := ⟨_, rfl⟩
    rw [hn] at h1 h2 hofn
    interval_cases n <;> (rw [← hofn]; decide)
  · have he : jsCharUpper c = c := by
      unfold jsCharUpper
      rw [if_neg (by omega)]
    rw [he]
    obtain ⟨n, hn⟩ : ∃ n, c.toNat = n := ⟨_, rfl⟩
    rw [hn] at h1 h2 hofn
    interval_cases n <;> (rw [← hofn]; decide)
  · have he : jsCharUpper c = Char.ofNat (c.toNat - 32) := by
      unfold jsCharUpper
      rw [if_pos (by omega)]
    rw [he]
    obtain ⟨n, hn⟩ : ∃ n, c.toNat = n := ⟨_, rfl⟩
    rw [hn] at h1 h2 ⊢
    interval_cases n <;> decide

theorem decodeColorToken_isSome (t : String) (h : isHex6 t = true) :
    ∃ c : Color, decodeColorToken t = some c := by
  have hh := h
  obtain ⟨data⟩ := t
  simp only [isHex6, Bool.and_eq_true, beq_iff_eq, List.all_eq_true] at h
  obtain ⟨hlen, hall⟩ := h
  obtain ⟨d1, d2, d3, d4, d5, d6, rfl⟩ := list_length_six data (by exact_mod_cast hlen)
  have u1 := jsCharUpper_hexDigit_mem d1 (hall d1 (by simp))
  have u2 := jsCharUpper_hexDigit_mem d2 (hall d2 (by simp))
  have u3 := jsCharUpper_hexDigit_mem d3 (hall d3 (by simp))
  have u4 := jsCharUpper_hexDigit_mem d4 (hall d4 (by simp))
  have u5 := jsCharUpper_hexDigit_mem d5 (hall d5 (by simp))
  have u6 := jsCharUpper_hexDigit_mem d6 (hall d6 (by simp))
  suffices hs : (decodeColorToken ⟨[d1, d2, d3, d4, d5, d6]⟩).isSome = true by
    obtain ⟨c, hc⟩ := Option.isSome_iff_exists.mp hs
    exact ⟨c, hc⟩
  unfold decodeColorToken
  rw [if_pos hh]
  simp only []
  rw [show ("#" ++ jsToUpper ⟨[d1, d2, d3, d4, d5, d6]⟩ : String) =
    ⟨'#' :: [jsCharUpper d1, jsCharUpper d2, jsCharUpper d3, jsCharUpper d4,
      jsCharUpper d5, jsCharUpper d6]⟩ from rfl]
  rw [hexToRgb_canonical _ _ _ _ _ _ u1 u2 u3 u4 u5 u6]
  rfl

theorem decodeColorToken_eq_none_iff (t : String) :
    decodeColorToken t = none ↔ isHex6 t = false := by
  constructor
  · intro h
    cases hx : isHex6 t
    · rfl
    · obtain ⟨c, hc⟩ := decodeColorToken_isSome t hx
      rw [hc] at h
      exact absurd h (by simp)
  · intro h
    unfold decodeColorToken
    rw [if_neg (by simp [h])]

theorem mapMOpt_eq_none_iff {α β : Type} (f : α → Option β) (l : List α) :
    mapMOpt f l = none ↔ ∃ a ∈ l, f a = none := by
  induction l with
  | nil => simp [mapMOpt]
  | cons a l ih =>
    rw [show mapMOpt f (a :: l) = (match f a, mapMOpt f l with
      | some b, some l2 => some (b :: l2)
      | _, _ => none) from rfl]
    cases hfa : f a with
    | none =>
      exact iff_of_true rfl ⟨a, by simp, hfa⟩
    | some b =>
      cases hml : mapMOpt f l with
      | none =>
        obtain ⟨x, hx, hfx⟩ := ih.mp hml
        exact iff_of_true rfl ⟨x, by simp [hx], hfx⟩
      | some l2 =>
        refine iff_of_false (by simp) ?_
        rintro ⟨x, hx, hfx⟩
        rcases List.mem_cons.mp hx with rfl | hx
        · rw [hfa] at hfx
          exact absurd hfx (by simp)
        · rw [ih.mpr ⟨x, hx, hfx⟩] at hml
          exact absurd hml (by simp)

theorem mapMOpt_mem {α β : Type} (f : α → Option β) (l : List α) (l2 : List β)
    (h : mapMOpt f l = some l2) : ∀ b ∈ l2, ∃ a ∈ l, f a = some b := by
  induction l generalizing l2 with
  | nil =>
    rw [mapMOpt_nil] at h
    obtain rfl := Option.some.inj h
    simp
  | cons a l ih =>
    rw [show mapMOpt f (a :: l) = (match f a, mapMOpt f l with
      | some b, some l2 => some (b :: l2)
      | _, _ => none) from rfl] at h
    cases hfa : f a with
    | none => rw [hfa] at h; exact absurd h (by simp)
    | some b =>
      rw [hfa] at h
      cases hml : mapMOpt f l with
      | none => rw [hml] at h; exact absurd h (by simp)
      | some l3 =>
        rw [hml] at h
        simp only [] at h
        obtain rfl := Option.some.inj h
        intro x hx
        rcases List.mem_cons.mp hx with rfl | hx
        · exact ⟨a, by simp, hfa⟩
        · obtain ⟨a2, ha2, hfa2⟩ := ih l3 hml x hx
          exact ⟨a2, by simp [ha2], hfa2⟩

theorem mapMOpt_some_spec {α β : Type} (f : α → Option β) (l : List α) (l2 : List β)
    (h : mapMOpt f l = some l2) :
    l2.length = l.length ∧
      ∀ i (hi : i < l.length), ∃ hi2 : i < l2.length,
        f (l.get ⟨i, hi⟩) = some (l2.get ⟨i, hi2⟩) := by
  induction l generalizing l2 with
  | nil =>
    rw [mapMOpt_nil] at h
    obtain rfl := Option.some.inj h
    exact ⟨rfl, fun i hi => absurd hi (by simp)⟩
  | cons a l ih =>
    rw [show mapMOpt f (a :: l) = (match f a, mapMOpt f l with
      | some b, some l2 => some (b :: l2)
      | _, _ => none) from rfl] at h
    cases hfa : f a with
    | none => rw [hfa] at h; exact absurd h (by simp)
    | some b =>
      rw [hfa] at h
      cases hml : mapMOpt f l with
      | none => rw [hml] at h; exact absurd h (by simp)
      | some l3 =>
        rw [hml] at h
        simp only [] at h
        obtain rfl := Option.some.inj h
        obtain ⟨hlen, hspec⟩ := ih l3 hml
        refine ⟨by simp [hlen], ?_⟩
        intro i hi
        cases i with
        | zero => exact ⟨by simp, hfa⟩
        | succ j =>
          obtain ⟨hj2, hspecj⟩ := hspec j (by simpa using hi)
          exact ⟨by simpa using hj2, hspecj⟩

theorem decodeColorToken_spec (t : String) (c : Color) (h : decodeColorToken t = some c) :
    c.hex = "#" ++ jsToUpper t ∧ rgbOf (hexToRgb c.hex) = some c.rgb ∧
      c.hsl = rgbToHsl c.rgb ∧ c.locked = false := by
  unfold decodeColorToken at h
  split_ifs at h
  simp only [] at h
  cases hrg : rgbOf (hexToRgb ("#" ++ jsToUpper t)) with
  | none =>
    rw [hrg] at h
    exact absurd h (by simp)
  | some rgb =>
    rw [hrg] at h
    simp only [] at h
    obtain rfl := Option.some.inj h
    exact ⟨rfl, hrg, rfl, rfl⟩

/-- C4: `decodePaletteFromUrl` returns `none` exactly when, after stripping a
leading `#`, the input is empty, the `colors` parameter is absent (or empty,
in which case its comma-split length is 1, not 5), the comma-split color list
does not have exactly 5 entries, or some color token fails the 6-hex-digit
test; and whenever the decode succeeds, a `locks` value failing the
`[01]{5}` test leaves every position unlocked, and a `harmony` value not
among the five rule names leaves the rule omitted. -/
theorem c4_decode_failure_conditions (urlHash : String) :
    (decodePaletteFromUrl urlHash = none ↔
      stripLeadingHash urlHash = "" ∨
      getParam (parseQuery (stripLeadingHash urlHash)) "colors" = none ∨
      (∃ v, getParam (parseQuery (stripLeadingHash urlHash)) "colors" = some v ∧
        ((splitComma v).length ≠ 5 ∨ ∃ t ∈ splitComma v, isHex6 t = false))) ∧
    (∀ q, decodePaletteFromUrl urlHash = some q →
      ((∀ lv, getParam (parseQuery (stripLeadingHash urlHash)) "locks" = some lv →
          isLocks5 lv = false → ∀ c ∈ q.colors, c.locked = false) ∧
        (∀ hv, getParam (parseQuery (stripLeadingHash urlHash)) "harmony" = some hv →
          parseHarmonyRule hv = none → q.harmonyRule = none))) := by
  by_cases hclean : stripLeadingHash urlHash = ""
  · constructor
    · simp only [decodePaletteFromUrl]
      rw [if_pos hclean]
      exact iff_of_true rfl (Or.inl hclean)
    · intro q hq
      simp only [decodePaletteFromUrl] at hq
      rw [if_pos hclean] at hq
      exact absurd hq (by simp)
  cases hcp : getParam (parseQuery (stripLeadingHash urlHash)) "colors" with
  | none =>
    constructor
    · simp only [decodePaletteFromUrl]
      rw [if_neg hclean, hcp]
      exact iff_of_true rfl (Or.inr (Or.inl trivial))
    · intro q hq
      simp only [decodePaletteFromUrl] at hq
      rw [if_neg hclean, hcp] at hq
      exact absurd hq (by simp)
  | some v =>
    by_cases hve : v = ""
    · subst hve
      constructor
      · simp only [decodePaletteFromUrl]
        rw [if_neg hclean, hcp]
        simp only []
        rw [if_pos trivial]
        exact iff_of_true rfl (Or.inr (Or.inr ⟨"", rfl, Or.inl (by decide)⟩))
      · intro q hq
        simp only [decodePaletteFromUrl] at hq
        rw [if_neg hclean, hcp] at hq
        simp only [] at hq
        rw [if_pos trivial] at hq
        exact absurd hq (by simp)
    · by_cases hlen : (splitComma v).length = 5
      · cases hmap : mapMOpt decodeColorToken (splitComma v) with
        | none =>
          obtain ⟨t, ht, hft⟩ := (mapMOpt_eq_none_iff _ _).mp hmap
          have hhex6 : isHex6 t = false := (decodeColorToken_eq_none_iff t).mp hft
          constructor
          · simp only [decodePaletteFromUrl]
            rw [if_neg hclean, hcp]
            simp only []
            rw [if_neg hve, if_neg (show ¬(splitComma v).length ≠ 5 from by omega), hmap]
            exact iff_of_true rfl (Or.inr (Or.inr ⟨v, rfl, Or.inr ⟨t, ht, hhex6⟩⟩))
          · intro q hq
            simp only [decodePaletteFromUrl] at hq
            rw [if_neg hclean, hcp] at hq
            simp only [] at hq
            rw [if_neg hve, if_neg (show ¬(splitComma v).length ≠ 5 from by omega),
              hmap] at hq
            exact absurd hq (by simp)
        | some colors =>
          constructor
          · simp only [decodePaletteFromUrl]
            rw [if_neg hclean, hcp]
            simp only []
            rw [if_neg hve, if_neg (show ¬(splitComma v).length ≠ 5 from by omega), hmap]
            simp only []
            refine iff_of_false (by simp) ?_
            rintro (h | h | ⟨v2, hv2, hbad⟩)
            · exact hclean h
            · exact absurd h (by simp)
            · obtain rfl := Option.some.inj hv2
              rcases hbad with hbad | ⟨t, ht, hhex6⟩
              · exact hbad hlen
              · have hnone := (decodeColorToken_eq_none_iff t).mpr hhex6
                rw [(mapMOpt_eq_none_iff _ _).mpr ⟨t, ht, hnone⟩] at hmap
                exact absurd hmap (by simp)
          · intro q hq
            simp only [decodePaletteFromUrl] at hq
            rw [if_neg hclean, hcp] at hq
            simp only [] at hq
            rw [if_neg hve, if_neg (show ¬(splitComma v).length ≠ 5 from by omega),
              hmap] at hq
            simp only [] at hq
            obtain rfl := Option.some.inj hq
            constructor
            · intro lv hlv hl5 c hc
              simp only [] at hc
              rw [hlv] at hc
              simp only [] at hc
              rw [if_neg (by simp [hl5])] at hc
              obtain ⟨t, _, hft⟩ := mapMOpt_mem _ _ _ hmap c hc
              exact (decodeColorToken_spec t c hft).2.2.2
            · intro hv hhv hnorule
              show (match getParam (parseQuery (stripLeadingHash urlHash)) "harmony" with
                | some hv2 => parseHarmonyRule hv2
                | none => none) = none
              rw [hhv]
              simp only []
              exact hnorule
      · constructor
        · simp only [decodePaletteFromUrl]
          rw [if_neg hclean, hcp]
          simp only []
          rw [if_neg hve, if_pos hlen]
          exact iff_of_true rfl (Or.inr (Or.inr ⟨v, rfl, Or.inl hlen⟩))
        · intro q hq
          simp only [decodePaletteFromUrl] at hq
          rw [if_neg hclean, hcp] at hq
          simp only [] at hq
          rw [if_neg hve, if_pos hlen] at hq
          exact absurd hq (by simp)

theorem isLocks5_length (s : String) (h : isLocks5 s = true) : s.data.length = 5 := by
  simp only [isLocks5, Bool.and_eq_true, beq_iff_eq] at h
  exact_mod_cast h.1

theorem parseHarmonyRule_mem (s : String) (r : HarmonyRule)
    (h : parseHarmonyRule s = some r) : r ∈ harmonyRulesList := by
  unfold parseHarmonyRule at h
  split_ifs at h <;> (obtain rfl := Option.some.inj h; simp [harmonyRulesList])

theorem c10_core (v : String) (colors cs2 : List Color)
    (hmap : mapMOpt decodeColorToken (splitComma v) = some colors)
    (hlen : (splitComma v).length = 5)
    (hcs2 : cs2 = colors ∨ ∃ lv : String, lv.data.length = 5 ∧
      cs2 = List.zipWith (fun (c : Color) ch => { c with locked := ch == '1' })
        colors lv.data) :
    cs2.length = 5 ∧
      ∀ i (hi : i < 5), ∃ hiq : i < cs2.length, ∃ hiv : i < (splitComma v).length,
        (cs2.get ⟨i, hiq⟩).hex = "#" ++ jsToUpper ((splitComma v).get ⟨i, hiv⟩) ∧
        rgbOf (hexToRgb (cs2.get ⟨i, hiq⟩).hex) = some (cs2.get ⟨i, hiq⟩).rgb ∧
        (cs2.get ⟨i, hiq⟩).hsl = rgbToHsl (cs2.get ⟨i, hiq⟩).rgb := by
  obtain ⟨hlen2, hspec⟩ := mapMOpt_some_spec _ _ _ hmap
  have hc5 : colors.length = 5 := by omega
  rcases hcs2 with rfl | ⟨lv, hlv5, rfl⟩
  · refine ⟨hc5, ?_⟩
    intro i hi
    refine ⟨by omega, by omega, ?_⟩
    obtain ⟨hi2, hfi⟩ := hspec i (by omega)
    obtain ⟨hhex, hrgb, hhsl, _⟩ := decodeColorToken_spec _ _ hfi
    exact ⟨hhex, hrgb, hhsl⟩
  · have hzlen : (List.zipWith (fun (c : Color) ch => { c with locked := ch == '1' })
        colors lv.data).length = 5 := by
      rw [List.length_zipWith]
      omega
    refine ⟨hzlen, ?_⟩
    intro i hi
    refine ⟨by omega, by omega, ?_⟩
    have hig : i < (List.zipWith (fun (c : Color) ch => { c with locked := ch == '1' })
        colors lv.data).length := by omega
    have hgz : (List.zipWith (fun (c : Color) ch => { c with locked := ch == '1' })
        colors lv.data).get ⟨i, hig⟩ =
        { colors.get ⟨i, by omega⟩ with locked := lv.data.get ⟨i, by omega⟩ == '1' } := by
      simp only [List.get_eq_getElem]
      rw [List.getElem_zipWith]
    rw [hgz]
    obtain ⟨hi2, hfi⟩ := hspec i (by omega)
    obtain ⟨hhex, hrgb, hhsl, _⟩ := decodeColorToken_spec _ _ hfi
    exact ⟨hhex, hrgb, hhsl⟩

/-- C10: whenever `decodePaletteFromUrl` returns a palette, there are exactly
5 comma-split tokens of the `colors` parameter and 5 returned colors; the
i-th color's `hex` is `#` followed by the i-th token converted to upper
case, its `rgb` is exactly the `hexToRgb` parse of that hex, its `hsl` is
`rgbToHsl` of that `rgb`, and a present `harmonyRule` is one of the five
known rules. -/
theorem c10_decode_well_formed (urlHash : String) (q : Palette)
    (h : decodePaletteFromUrl urlHash = some q) :
    ∃ v, getParam (parseQuery (stripLeadingHash urlHash)) "colors" = some v ∧
      q.colors.length = 5 ∧ (splitComma v).length = 5 ∧
      (∀ i (hi : i < 5), ∃ hiq : i < q.colors.length, ∃ hiv : i < (splitComma v).length,
        (q.colors.get ⟨i, hiq⟩).hex = "#" ++ jsToUpper ((splitComma v).get ⟨i, hiv⟩) ∧
        rgbOf (hexToRgb (q.colors.get ⟨i, hiq⟩).hex) = some (q.colors.get ⟨i, hiq⟩).rgb ∧
        (q.colors.get ⟨i, hiq⟩).hsl = rgbToHsl (q.colors.get ⟨i, hiq⟩).rgb) ∧
      (∀ r, q.harmonyRule = some r → r ∈ harmonyRulesList) := by
  by_cases hclean : stripLeadingHash urlHash = ""
  · simp only [decodePaletteFromUrl] at h
    rw [if_pos hclean] at h
    exact absurd h (by simp)
  cases hcp : getParam (parseQuery (stripLeadingHash urlHash)) "colors" with
  | none =>
    simp only [decodePaletteFromUrl] at h
    rw [if_neg hclean, hcp] at h
    exact absurd h (by simp)
  | some v =>
    by_cases hve : v = ""
    · subst hve
      simp only [decodePaletteFromUrl] at h
      rw [if_neg hclean, hcp] at h
      simp only [] at h
      rw [if_pos trivial] at h
      exact absurd h (by simp)
    · by_cases hlen : (splitComma v).length = 5
      · cases hmap : mapMOpt decodeColorToken (splitComma v) with
        | none =>
          simp only [decodePaletteFromUrl] at h
          rw [if_neg hclean, hcp] at h
          simp only [] at h
          rw [if_neg hve, if_neg (show ¬(splitComma v).length ≠ 5 from by omega),
            hmap] at h
          exact absurd h (by simp)
        | some colors =>
          simp only [decodePaletteFromUrl] at h
          rw [if_neg hclean, hcp] at h
          simp only [] at h
          rw [if_neg hve, if_neg (show ¬(splitComma v).length ≠ 5 from by omega),
            hmap] at h
          simp only [] at h
          obtain rfl := Option.some.inj h
          have hharm : ∀ r, (match getParam (parseQuery (stripLeadingHash urlHash))
              "harmony" with
            | some harmonyParam => parseHarmonyRule harmonyParam
            | none => none) = some r → r ∈ harmonyRulesList := by
            intro r hr
            cases hhv : getParam (parseQuery (stripLeadingHash urlHash)) "harmony" with
            | none =>
              rw [hhv] at hr
              exact absurd hr (by simp)
            | some hv =>
              rw [hhv] at hr
              simp only [] at hr
              exact parseHarmonyRule_mem hv r hr
          cases hlk : getParam (parseQuery (stripLeadingHash urlHash)) "locks" with
          | none =>
            obtain ⟨hq5, hper⟩ := c10_core v colors colors hmap hlen (Or.inl rfl)
            exact ⟨v, rfl, hq5, hlen, hper, hharm⟩
          | some lv =>
            cases hl5 : isLocks5 lv with
            | false =>
              obtain ⟨hq5, hper⟩ := c10_core v colors
                (if isLocks5 lv = true then
                  List.zipWith (fun (c : Color) ch => { c with locked := ch == '1' })
                    colors lv.data
                else colors) hmap hlen
                (Or.inl (if_neg (show ¬(isLocks5 lv = true) from by simp [hl5])))
              exact ⟨v, rfl, hq5, hlen, hper, hharm⟩
            | true =>
              obtain ⟨hq5, hper⟩ := c10_core v colors
                (if isLocks5 lv = true then
                  List.zipWith (fun (c : Color) ch => { c with locked := ch == '1' })
                    colors lv.data
                else colors) hmap hlen
                (Or.inr ⟨lv, isLocks5_length lv hl5, if_pos hl5⟩)
              exact ⟨v, rfl, hq5, hlen, hper, hharm⟩
      · simp only [decodePaletteFromUrl] at h
        rw [if_neg hclean, hcp] at h
        simp only [] at h
        rw [if_neg hve, if_pos hlen] at h
        exact absurd h (by simp)

set_option maxRecDepth 20000 in
theorem c10_decode_well_formed_witness :
    decodePaletteFromUrl "colors=000000,000000,000000,000000,000000" =
      some ⟨[⟨"#000000", ⟨0, 0, 0⟩, ⟨0, 0, 0⟩, false⟩,
        ⟨"#000000", ⟨0, 0, 0⟩, ⟨0, 0, 0⟩, false⟩,
        ⟨"#000000", ⟨0, 0, 0⟩, ⟨0, 0, 0⟩, false⟩,
        ⟨"#000000", ⟨0, 0, 0⟩, ⟨0, 0, 0⟩, false⟩,
        ⟨"#000000", ⟨0, 0, 0⟩, ⟨0, 0, 0⟩, false⟩], none⟩ ∧
    (∃ v, getParam (parseQuery (stripLeadingHash
          "colors=000000,000000,000000,000000,000000")) "colors" = some v ∧
      (⟨[⟨"#000000", ⟨0, 0, 0⟩, ⟨0, 0, 0⟩, false⟩,
        ⟨"#000000", ⟨0, 0, 0⟩, ⟨0, 0, 0⟩, false⟩,
        ⟨"#000000", ⟨0, 0, 0⟩, ⟨0, 0, 0⟩, false⟩,
        ⟨"#000000", ⟨0, 0, 0⟩, ⟨0, 0, 0⟩, false⟩,
        ⟨"#000000", ⟨0, 0, 0⟩, ⟨0, 0, 0⟩, false⟩], none⟩ : Palette).colors.length = 5 ∧
      (splitComma v).length = 5 ∧
      (∀ i (hi : i < 5),
        ∃ hiq : i < (⟨[⟨"#000000", ⟨0, 0, 0⟩, ⟨0, 0, 0⟩, false⟩,
          ⟨"#000000", ⟨0, 0, 0⟩, ⟨0, 0, 0⟩, false⟩,
          ⟨"#000000", ⟨0, 0, 0⟩, ⟨0, 0, 0⟩, false⟩,
          ⟨"#000000", ⟨0, 0, 0⟩, ⟨0, 0, 0⟩, false⟩,
          ⟨"#000000", ⟨0, 0, 0⟩, ⟨0, 0, 0⟩, false⟩], none⟩ : Palette).colors.length,
        ∃ hiv : i < (splitComma v).length,
        ((⟨[⟨"#000000", ⟨0, 0, 0⟩, ⟨0, 0, 0⟩, false⟩,
          ⟨"#000000", ⟨0, 0, 0⟩, ⟨0, 0, 0⟩, false⟩,
          ⟨"#000000", ⟨0, 0, 0⟩, ⟨0, 0, 0⟩, false⟩,
          ⟨"#000000", ⟨0, 0, 0⟩, ⟨0, 0, 0⟩, false⟩,
          ⟨"#000000", ⟨0, 0, 0⟩, ⟨0, 0, 0⟩, false⟩], none⟩ : Palette).colors.get
            ⟨i, hiq⟩).hex = "#" ++ jsToUpper ((splitComma v).get ⟨i, hiv⟩) ∧
        rgbOf (hexToRgb ((⟨[⟨"#000000", ⟨0, 0, 0⟩, ⟨0, 0, 0⟩, false⟩,
          ⟨"#000000", ⟨0, 0, 0⟩, ⟨0, 0, 0⟩, false⟩,
          ⟨"#000000", ⟨0, 0, 0⟩, ⟨0, 0, 0⟩, false⟩,
          ⟨"#000000", ⟨0, 0, 0⟩, ⟨0, 0, 0⟩, false⟩,
          ⟨"#000000", ⟨0, 0, 0⟩, ⟨0, 0, 0⟩, false⟩], none⟩ : Palette).colors.get
            ⟨i, hiq⟩).hex) =
          some (((⟨[⟨"#000000", ⟨0, 0, 0⟩, ⟨0, 0, 0⟩, false⟩,
          ⟨"#000000", ⟨0, 0, 0⟩, ⟨0, 0, 0⟩, false⟩,
          ⟨"#000000", ⟨0, 0, 0⟩, ⟨0, 0, 0⟩, false⟩,
          ⟨"#000000", ⟨0, 0, 0⟩, ⟨0, 0, 0⟩, false⟩,
          ⟨"#000000", ⟨0, 0, 0⟩, ⟨0, 0, 0⟩, false⟩], none⟩ : Palette).colors.get
            ⟨i, hiq⟩).rgb) ∧
        ((⟨[⟨"#000000", ⟨0, 0, 0⟩, ⟨0, 0, 0⟩, false⟩,
          ⟨"#000000", ⟨0, 0, 0⟩, ⟨0, 0, 0⟩, false⟩,
          ⟨"#000000", ⟨0, 0, 0⟩, ⟨0, 0, 0⟩, false⟩,
          ⟨"#000000", ⟨0, 0, 0⟩, ⟨0, 0, 0⟩, false⟩,
          ⟨"#000000", ⟨0, 0, 0⟩, ⟨0, 0, 0⟩, false⟩], none⟩ : Palette).colors.get
            ⟨i, hiq⟩).hsl =
          rgbToHsl (((⟨[⟨"#000000", ⟨0, 0, 0⟩, ⟨0, 0, 0⟩, false⟩,
          ⟨"#000000", ⟨0, 0, 0⟩, ⟨0, 0, 0⟩, false⟩,
          ⟨"#000000", ⟨0, 0, 0⟩, ⟨0, 0, 0⟩, false⟩,
          ⟨"#000000", ⟨0, 0, 0⟩, ⟨0, 0, 0⟩, false⟩,
          ⟨"#000000", ⟨0, 0, 0⟩, ⟨0, 0, 0⟩, false⟩], none⟩ : Palette).colors.get
            ⟨i, hiq⟩).rgb)) ∧
      (∀ r, (⟨[⟨"#000000", ⟨0, 0, 0⟩, ⟨0, 0, 0⟩, false⟩,
        ⟨"#000000", ⟨0, 0, 0⟩, ⟨0, 0, 0⟩, false⟩,
        ⟨"#000000", ⟨0, 0, 0⟩, ⟨0, 0, 0⟩, false⟩,
        ⟨"#000000", ⟨0, 0, 0⟩, ⟨0, 0, 0⟩, false⟩,
        ⟨"#000000", ⟨0, 0, 0⟩, ⟨0, 0, 0⟩, false⟩], none⟩ : Palette).harmonyRule = some r →
          r ∈ harmonyRulesList)) := by
  have hdec : decodePaletteFromUrl "colors=000000,000000,000000,000000,000000" =
      some ⟨[⟨"#000000", ⟨0, 0, 0⟩, ⟨0, 0, 0⟩, false⟩,
        ⟨"#000000", ⟨0, 0, 0⟩, ⟨0, 0, 0⟩, false⟩,
        ⟨"#000000", ⟨0, 0, 0⟩, ⟨0, 0, 0⟩, false⟩,
        ⟨"#000000", ⟨0, 0, 0⟩, ⟨0, 0, 0⟩, false⟩,
        ⟨"#000000", ⟨0, 0, 0⟩, ⟨0, 0, 0⟩, false⟩], none⟩ :=
    of_decide_eq_true (by with_unfolding_all rfl)
  exact ⟨hdec, c10_decode_well_formed "colors=000000,000000,000000,000000,000000" _ hdec⟩

end KiroMicroTools
